import Mathlib

/-!
# ApplyAI typeform wizard (`src/typeform.js`)

A shallow embedding of the navigation, validation, data-collection and
submission code of `src/typeform.js`, and theorems about it.

Conventions of the embedding

* JavaScript strings are Lean `String`s, processed through their character
  lists.  The code only tests characters for membership in the ECMAScript
  white-space set and for equality with `@` and `.`; every code unit of a
  surrogate pair is outside those sets, so working with code points instead of
  UTF-16 code units does not change any result.
* The page (the HTML document, which is not part of the source file) is a
  parameter: a list of `.tf-question` elements, each with its form controls.
* Module-level variables (`currentQuestion`, `formData`, `isAnimating`) and the
  parts of the page the code writes to are fields of an explicit `State`.
* A `TypeError` raised in the middle of a function is modelled by `Except`:
  the error value carries the state as it was when the exception was raised.
-/

namespace Typeform

/-! ## Strings: ECMAScript white space, `trim`, `includes` -/

/-- ECMAScript `WhiteSpace` and `LineTerminator` code points: the set removed by
`String.prototype.trim` and matched by the regular-expression class `\s`. -/
def isJsWhitespace (c : Char) : Bool :=
  let n := c.toNat
  n == 0x09 || n == 0x0A || n == 0x0B || n == 0x0C || n == 0x0D || n == 0x20 ||
  n == 0xA0 || n == 0x1680 || (0x2000 ≤ n && n ≤ 0x200A) || n == 0x2028 ||
  n == 0x2029 || n == 0x202F || n == 0x205F || n == 0x3000 || n == 0xFEFF

/-- The characters of `s.trim()`: leading and trailing white space removed. -/
def jsTrim (s : List Char) : List Char :=
  ((s.dropWhile isJsWhitespace).reverse.dropWhile isJsWhitespace).reverse

/-- The test `!value.trim()`: the trimmed string is empty. -/
def trimIsEmpty (s : String) : Bool :=
  (jsTrim s.toList).isEmpty

/-- Is `p` a prefix of `s`. -/
def startsWithChars : List Char → List Char → Bool
  | [], _ => true
  | _ :: _, [] => false
  | a :: p, b :: s => a == b && startsWithChars p s

/-- The test `s.includes(p)` of `String.prototype.includes`: `p` occurs in `s`. -/
def includesChars (s p : List Char) : Bool :=
  match s with
  | [] => p.isEmpty
  | c :: t => startsWithChars p (c :: t) || includesChars t p

/-! ## Regular expressions

The fragment of ECMAScript regular expressions used by the source: literal
characters, negated character classes over `\s` and literal characters,
concatenation and `+`.  A pattern enclosed in `^`…`$` (without the `m` flag) is
tested against the whole string.  The patterns of this fragment have no
captures, back-references or look-around, so `RegExp.prototype.test` succeeds
exactly when the whole string belongs to the language of the pattern; the
matcher below decides that by Brzozowski derivatives. -/

/-- An item of a character class. -/
inductive ClassAtom where
  | space
  | lit (c : Char)

/-- Does the class item match the character. -/
def ClassAtom.test : ClassAtom → Char → Bool
  | .space, c => isJsWhitespace c
  | .lit d, c => c == d

/-- Regular expressions. -/
inductive Regex where
  | empty
  | eps
  | chr (c : Char)
  | ncls (atoms : List ClassAtom)
  | seq (r s : Regex)
  | alt (r s : Regex)
  | star (r : Regex)

namespace Regex

/-- The quantifier `+`. -/
def plus (r : Regex) : Regex := seq r (star r)

/-- Does the expression match the empty string. -/
def nullable : Regex → Bool
  | empty => false
  | eps => true
  | chr _ => false
  | ncls _ => false
  | seq r s => nullable r && nullable s
  | alt r s => nullable r || nullable s
  | star _ => true

/-- The derivative of the expression by a character. -/
def deriv : Regex → Char → Regex
  | empty, _ => empty
  | eps, _ => empty
  | chr d, c => if c == d then eps else empty
  | ncls atoms, c => if atoms.any (fun a => a.test c) then empty else eps
  | seq r s, c => if nullable r then alt (seq (deriv r c) s) (deriv s c) else seq (deriv r c) s
  | alt r s, c => alt (deriv r c) (deriv s c)
  | star r, c => seq (deriv r c) (star r)

/-- Whole-string match. -/
def rmatch : Regex → List Char → Bool
  | r, [] => nullable r
  | r, c :: w => rmatch (deriv r c) w

end Regex

/-- The class `[^\s@]`. -/
def notSpaceAt : Regex := .ncls [.space, .lit '@']

/-- The pattern of `const emailRegex = /^[^\s@]+@[^\s@]+\.[^\s@]+$/`. -/
def emailRegex : Regex :=
  .seq notSpaceAt.plus (.seq (.chr '@') (.seq notSpaceAt.plus (.seq (.chr '.') notSpaceAt.plus)))

/-- The test `emailRegex.test(value)`. -/
def emailRegexTest (value : String) : Bool :=
  emailRegex.rmatch value.toList

/-- The shape the specification gives for an accepted address: it contains an
`@`, it contains a `.` somewhere after an `@`, and it contains no white space. -/
def specEmailShape (value : String) : Bool :=
  value.toList.contains '@' &&
  ((value.toList.dropWhile (fun c => c != '@')).contains '.') &&
  value.toList.all (fun c => !isJsWhitespace c)

/-! ## The page

The document is not part of the source file.  It is represented by the list of
its `.tf-question` elements in document order, each with the form controls
(`input`, `select`, `textarea`) below it, in document order.  Controls are
assumed to carry a `name` attribute without quote or backslash characters, so
that the attribute selectors the code builds from names are well formed. -/

/-- The kind of a form control: for an `input` element the value of its `type`
property, otherwise the element itself (for which `type` is `select-one`,
`select-multiple` or `textarea`). -/
inductive Kind where
  | text | email | tel | url | number | radio | checkbox | file | otherInput
  | select | textarea
  deriving DecidableEq, Repr

/-- A form control. -/
structure Input where
  /-- The element and `type`. -/
  kind : Kind
  /-- The `name` property. -/
  name : String
  /-- The `value` property. -/
  value : String
  /-- The `checked` property. -/
  checked : Bool
  /-- The `required` attribute. -/
  required : Bool
  /-- The class `tf-input`. -/
  tfInput : Bool
  /-- The class `error`. -/
  error : Bool
  deriving DecidableEq, Repr

/-- A `.tf-question` element. -/
structure Question where
  /-- The `data-question` attribute, as the integer it spells. -/
  dataQuestion : Int
  /-- The controls below the element. -/
  inputs : List Input
  /-- The class `active`. -/
  active : Bool
  /-- The class `slide-up`. -/
  slideUp : Bool
  /-- The class `slide-down`. -/
  slideDown : Bool
  deriving DecidableEq, Repr

/-- The selector `input[required], select[required]`. -/
def Input.isRequiredInput (i : Input) : Bool :=
  i.required && i.kind != .textarea

/-- The pseudo-class `:checked` on an `input` element: it applies to radio
buttons and checkboxes only. -/
def Input.matchesChecked (i : Input) : Bool :=
  (i.kind == .radio || i.kind == .checkbox) && i.checked

/-- The call
``document.querySelector(`.tf-question[data-question="${n}"]`)``: the position in
the page of the first question element with that number, `none` for `null`. -/
def queryQuestion : List Question → Int → Option Nat
  | [], _ => none
  | q :: rest, n =>
    if q.dataQuestion = n then some 0 else (queryQuestion rest n).map (· + 1)

/-- Apply a change to the element at a position of the page. -/
def modifyAt (f : Question → Question) : List Question → Nat → List Question
  | [], _ => []
  | q :: rest, 0 => f q :: rest
  | q :: rest, k + 1 => q :: modifyAt f rest k

/-- The call ``el.querySelector(`input[name="${name}"]:checked`)`` is not `null`. -/
def anyCheckedNamed (inputs : List Input) (name : String) : Bool :=
  inputs.any (fun j => j.name == name && j.matchesChecked)

/-- The call `el.querySelector('input[type="email"]')`: the position of the
first email input among the controls. -/
def queryEmail : List Input → Option Nat
  | [] => none
  | i :: rest => if i.kind = .email then some 0 else (queryEmail rest).map (· + 1)

/-- Apply a change to the control at a position. -/
def modifyInput (f : Input → Input) : List Input → Nat → List Input
  | [], _ => []
  | i :: rest, 0 => f i :: rest
  | i :: rest, k + 1 => i :: modifyInput f rest k

/-! ## Validation (`validateCurrentQuestion`)

The `shake` animation and the transient `error` class that `showError` puts on
the `.tf-choices` container of a radio group are written and never read by the
code; they are left out.  The `error` class of a control is kept. -/

/-- The body of `requiredInputs.forEach(input => …)` for one control of the
question: whether the control passes, and the control with its classes
updated.  Controls that are not selected by `input[required], select[required]`
are not visited. -/
def checkRequired (inputs : List Input) (input : Input) : Bool × Input :=
  if input.isRequiredInput then
    if input.kind = .radio then
      (anyCheckedNamed inputs input.name, input)
    else if trimIsEmpty input.value then
      (false, { input with error := true })
    else (true, input)
  else (true, input)

/-- The loop `requiredInputs.forEach`: `isValid` after the loop and the controls
after the loop.  `all` is the full list of controls of the question, which the
radio test queries. -/
def checkAllRequired (all : List Input) : List Input → Bool × List Input
  | [] => (true, [])
  | i :: rest =>
    let r := checkRequired all i
    let rs := checkAllRequired all rest
    (r.1 && rs.1, r.2 :: rs.2)

/-- The block "Special validation for email": whether it passes, and the
controls afterwards. -/
def checkEmail (inputs : List Input) : Bool × List Input :=
  match queryEmail inputs with
  | none => (true, inputs)
  | some k =>
    match inputs.get? k with
    | none => (true, inputs)
    | some emailInput =>
      if emailInput.value ≠ "" ∧ emailRegexTest emailInput.value = false then
        (false, modifyInput (fun i => { i with error := true }) inputs k)
      else (true, inputs)

/-- The block "Validation for domains": on question 13 at least one control
selected by `input[name="domains"]:checked`. -/
def checkDomains (currentQuestion : Int) (inputs : List Input) : Bool :=
  if currentQuestion = 13 then anyCheckedNamed inputs "domains" else true

/-- The function `validateCurrentQuestion` on the question element found: the
returned `isValid` and the element afterwards. -/
def validateQuestion (currentQuestion : Int) (el : Question) : Bool × Question :=
  let r := checkAllRequired el.inputs el.inputs
  let e := checkEmail r.2
  let d := checkDomains currentQuestion el.inputs
  (r.1 && e.1 && d, { el with inputs := e.2 })

/-! ## The answer record (`formData`)

`formData` is a plain object used as a map from control names to values.  It is
represented by its own properties in insertion order; control names are assumed
not to be names of members of `Object.prototype`.  The values the code stores
are strings (text fields, radio buttons), arrays of strings (checkbox groups)
and the `File` stored by `handleFileUpload`. -/

/-- A value stored in `formData`. -/
inductive FieldValue where
  | text (s : String)
  | list (vs : List String)
  | file (name : String)
  deriving DecidableEq, Repr

/-- The object `formData`: its properties in insertion order. -/
abbrev FormData := List (String × FieldValue)

/-- The read `formData[name]`; `none` is `undefined`. -/
def getField : FormData → String → Option FieldValue
  | [], _ => none
  | (k, v) :: rest, name => if k = name then some v else getField rest name

/-- The assignment `formData[name] = v`: an existing property keeps its place,
a new property is added last. -/
def setField : FormData → String → FieldValue → FormData
  | [], name, v => [(name, v)]
  | (k, x) :: rest, name, v =>
    if k = name then (k, v) :: rest else (k, x) :: setField rest name v

/-- The truth value of `formData[name]` in a condition: `undefined` and the
empty string are falsy, every array and object is truthy. -/
def truthy : Option FieldValue → Bool
  | none => false
  | some (.text s) => s != ""
  | some (.list _) => true
  | some (.file _) => true

/-! ## Data collection (`saveCurrentQuestionData`, `collectAllData`) -/

/-- The body of `inputs.forEach(input => …)` in `saveCurrentQuestionData`.
On a string value `includes` is the substring test and `push`, `filter` do not
exist; on a `File` none of the three exists: the call raises a `TypeError`,
which is the `error` result, carrying the record at that moment. -/
def saveInput (fd : FormData) (input : Input) : Except FormData FormData :=
  if input.kind = .radio then
    if input.checked then .ok (setField fd input.name (.text input.value)) else .ok fd
  else if input.kind = .checkbox then
    let fd1 := if truthy (getField fd input.name) then fd else setField fd input.name (.list [])
    match getField fd1 input.name with
    | some (.list vs) =>
      if input.checked && !vs.contains input.value then
        .ok (setField fd1 input.name (.list (vs ++ [input.value])))
      else if !input.checked then
        .ok (setField fd1 input.name (.list (vs.filter (fun v => v != input.value))))
      else .ok fd1
    | some (.text s) =>
      if input.checked && !includesChars s.toList input.value.toList then .error fd1
      else if !input.checked then .error fd1
      else .ok fd1
    | some (.file _) => .error fd1
    | none => .error fd1
  else if input.value ≠ "" then .ok (setField fd input.name (.text input.value))
  else .ok fd

/-- The loop `inputs.forEach(body)` over controls, acting on the record: the
first exception ends the loop. -/
def forEachInput (body : FormData → Input → Except FormData FormData) :
    FormData → List Input → Except FormData FormData
  | fd, [] => .ok fd
  | fd, i :: rest =>
    match body fd i with
    | .ok fd1 => forEachInput body fd1 rest
    | .error fd1 => .error fd1

/-- The loop `inputs.forEach` of `saveCurrentQuestionData` over the controls of
the question. -/
def saveInputs (fd : FormData) (inputs : List Input) : Except FormData FormData :=
  forEachInput saveInput fd inputs

/-- The function `saveCurrentQuestionData` on the page and the record. -/
def saveQuestionData (dom : List Question) (currentQuestion : Int) (fd : FormData) :
    Except FormData FormData :=
  match queryQuestion dom currentQuestion with
  | none => .ok fd
  | some k =>
    match dom.get? k with
    | none => .ok fd
    | some el => saveInputs fd el.inputs

/-- The body of the inner `inputs.forEach(input => …)` in `collectAllData`. -/
def collectInput (fd : FormData) (input : Input) : Except FormData FormData :=
  if input.kind = .radio ∧ input.checked = true then
    .ok (setField fd input.name (.text input.value))
  else if input.kind = .checkbox ∧ input.checked = true then
    let fd1 := if truthy (getField fd input.name) then fd else setField fd input.name (.list [])
    match getField fd1 input.name with
    | some (.list vs) =>
      if !vs.contains input.value then
        .ok (setField fd1 input.name (.list (vs ++ [input.value])))
      else .ok fd1
    | some (.text s) =>
      if !includesChars s.toList input.value.toList then .error fd1 else .ok fd1
    | some (.file _) => .error fd1
    | none => .error fd1
  else if input.kind ≠ .radio ∧ input.kind ≠ .checkbox ∧ input.value ≠ "" then
    .ok (setField fd input.name (.text input.value))
  else .ok fd

/-- The inner loop of `collectAllData` over the controls of one question. -/
def collectInputs (fd : FormData) (inputs : List Input) : Except FormData FormData :=
  forEachInput collectInput fd inputs

/-- The outer loop `document.querySelectorAll('.tf-question').forEach` of
`collectAllData`. -/
def collectQuestions : FormData → List Question → Except FormData FormData
  | fd, [] => .ok fd
  | fd, q :: rest =>
    match collectInputs fd q.inputs with
    | .ok fd1 => collectQuestions fd1 rest
    | .error fd1 => .error fd1

/-! ## The payload (`collectAllData`, second half) -/

/-- The string `String(v)` that `parseInt` works on. -/
def jsToString : Option FieldValue → List Char
  | none => "undefined".toList
  | some (.text s) => s.toList
  | some (.list vs) => (",".intercalate vs).toList
  | some (.file _) => "[object File]".toList

/-- The value of a digit in radix 10 or 16. -/
def digitValue (radix : Nat) (c : Char) : Option Nat :=
  let n := c.toNat
  if 48 ≤ n ∧ n ≤ 57 then some (n - 48)
  else if radix = 16 ∧ 97 ≤ n ∧ n ≤ 102 then some (n - 87)
  else if radix = 16 ∧ 65 ≤ n ∧ n ≤ 70 then some (n - 55)
  else none

/-- The longest prefix of digits, read in the radix: the digits seen so far as
a number, and whether a digit was seen. -/
def readDigits (radix : Nat) : List Char → Nat → Bool → Nat × Bool
  | [], acc, seen => (acc, seen)
  | c :: rest, acc, seen =>
    match digitValue radix c with
    | some d => readDigits radix rest (acc * radix + d) true
    | none => (acc, seen)

/-- The digits of `parseInt` after the sign: a `0x` or `0X` prefix selects
radix 16. -/
def parseMagnitude : List Char → Nat × Bool
  | '0' :: 'x' :: rest => readDigits 16 rest 0 false
  | '0' :: 'X' :: rest => readDigits 16 rest 0 false
  | cs => readDigits 10 cs 0 false

/-- The call `parseInt(v)` with no radix; `none` is `NaN`.  The result is the
mathematical integer read; a JavaScript number holds it exactly up to 2^53. -/
def parseInt (v : Option FieldValue) : Option Int :=
  let s := (jsToString v).dropWhile isJsWhitespace
  let r : Bool × (Nat × Bool) :=
    match s with
    | '-' :: rest => (true, parseMagnitude rest)
    | '+' :: rest => (false, parseMagnitude rest)
    | cs => (false, parseMagnitude cs)
  if r.2.2 then some (if r.1 then - (r.2.1 : Int) else (r.2.1 : Int)) else none

/-- The expression `v || null`; `none` is `null`. -/
def orNull (v : Option FieldValue) : Option FieldValue :=
  if truthy v then v else none

/-- The object `currentEducation` of the payload.  In `school`, `program`,
`currentYear` and `major`, `none` is `undefined`; `programDuration` is `null`;
in `expectedGraduation`, `none` is `NaN`. -/
structure CurrentEducation where
  school : Option FieldValue
  program : Option FieldValue
  currentYear : Option FieldValue
  programDuration : Option FieldValue
  major : Option FieldValue
  expectedGraduation : Option Int
  deriving DecidableEq, Repr

/-- The object `jobPreferences` of the payload.  In `contractType` and
`location`, `none` is `undefined`; elsewhere it is `null`. -/
structure JobPreferences where
  contractType : Option FieldValue
  domains : FieldValue
  location : Option FieldValue
  specificPosition : Option FieldValue
  salaryMin : Option FieldValue
  seniority : Option FieldValue
  flexibility : Option FieldValue
  deriving DecidableEq, Repr

/-- The object returned by `collectAllData`.  In `email`, `emailProvider`,
`fullName` and `cvUrl`, `none` is `undefined`; in `phone`, `linkedinUrl` and
`portfolioUrl` it is `null`. -/
structure Payload where
  email : Option FieldValue
  emailProvider : Option FieldValue
  fullName : Option FieldValue
  phone : Option FieldValue
  linkedinUrl : Option FieldValue
  portfolioUrl : Option FieldValue
  currentEducation : CurrentEducation
  completedEducation : List FieldValue
  experiences : List FieldValue
  skills : List FieldValue
  languages : List FieldValue
  cvUrl : Option FieldValue
  jobPreferences : JobPreferences
  deriving DecidableEq, Repr

/-- The object literal under "Structure data for API". -/
def structureData (fd : FormData) : Payload where
  email := getField fd "email"
  emailProvider := getField fd "emailProvider"
  fullName := getField fd "fullName"
  phone := orNull (getField fd "phone")
  linkedinUrl := orNull (getField fd "linkedinUrl")
  portfolioUrl := none
  currentEducation := {
    school := getField fd "currentSchool"
    program := getField fd "currentProgram"
    currentYear := getField fd "currentYear"
    programDuration := none
    major := getField fd "currentMajor"
    expectedGraduation := parseInt (getField fd "expectedGraduation") }
  completedEducation := []
  experiences := []
  skills := []
  languages := []
  cvUrl := getField fd "cvUrl"
  jobPreferences := {
    contractType := getField fd "contractType"
    domains := if truthy (getField fd "domains") then (getField fd "domains").getD (.list []) else .list []
    location := getField fd "location"
    specificPosition := orNull (getField fd "specificPosition")
    salaryMin := none
    seniority := none
    flexibility := none }

/-- The function `collectAllData` on the page and the record: the record after
the pass over the page and the payload built from it; `error` when the pass
raises a `TypeError`. -/
def collectData (dom : List Question) (fd : FormData) : Except FormData (FormData × Payload) :=
  match collectQuestions fd dom with
  | .ok fd1 => .ok (fd1, structureData fd1)
  | .error fd1 => .error fd1

/-! ## State and navigation -/

/-- The constant `TOTAL_QUESTIONS`. -/
def TOTAL_QUESTIONS : Int := 15

/-- The argument of `animateTransition`. -/
inductive Direction where
  | next | prev
  deriving DecidableEq, Repr

/-- The label the code writes into the forward button. -/
inductive NextLabel where
  | ok | terminer | envoi | reessayer
  deriving DecidableEq, Repr

/-- A pending `setTimeout` callback of the navigation code.  `exitDone` is the
300 ms callback of `animateTransition`, with the variables its closure
captured; `enterDone` is the 100 ms callback it sets. -/
inductive Timer where
  | exitDone (currentEl nextEl : Nat) (nextQuestionNum : Int)
  | enterDone
  deriving DecidableEq, Repr

/-- The module variables, the page, and the effects in flight. -/
structure State where
  /-- The variable `currentQuestion`. -/
  currentQuestion : Int
  /-- The variable `formData`. -/
  formData : FormData
  /-- The variable `isAnimating`. -/
  isAnimating : Bool
  /-- The `.tf-question` elements of the page. -/
  dom : List Question
  /-- The number written by `updateProgress` (text of `#currentQuestion`; the
  width of the bar is this number over `TOTAL_QUESTIONS`). -/
  shownQuestion : Int
  /-- The property `prevBtn.disabled`. -/
  prevBtnDisabled : Bool
  /-- The property `nextBtn.disabled`. -/
  nextBtnDisabled : Bool
  /-- The content of `nextBtn`. -/
  nextBtnLabel : NextLabel
  /-- The pending timers, oldest first. -/
  timers : List Timer
  /-- The bodies of the `fetch` requests that have been sent and have not
  completed. -/
  requests : List Payload

/-- The state carried by a result, normal or exceptional. -/
def outcome : Except State State → State
  | .ok s => s
  | .error s => s

/-- The function `validateCurrentQuestion`: the value returned and the state
afterwards. -/
def validateCurrentQuestion (s : State) : Bool × State :=
  match queryQuestion s.dom s.currentQuestion with
  | none => (true, s)
  | some k =>
    match s.dom.get? k with
    | none => (true, s)
    | some el =>
      (( validateQuestion s.currentQuestion el).1,
        { s with dom := modifyAt (fun q => (validateQuestion s.currentQuestion q).2) s.dom k })

/-- The function `saveCurrentQuestionData`. -/
def saveCurrentQuestionData (s : State) : Except State State :=
  match saveQuestionData s.dom s.currentQuestion s.formData with
  | .ok fd => .ok { s with formData := fd }
  | .error fd => .error { s with formData := fd }

/-- The function `collectAllData`: the state afterwards and the object
returned. -/
def collectAllData (s : State) : Except State (State × Payload) :=
  match collectData s.dom s.formData with
  | .ok r => .ok ({ s with formData := r.1 }, r.2)
  | .error fd => .error { s with formData := fd }

/-- The function `updateProgress`. -/
def updateProgress (s : State) : State :=
  { s with shownQuestion := s.currentQuestion }

/-- The function `updateNavButtons`. -/
def updateNavButtons (s : State) : State :=
  { s with
    prevBtnDisabled := decide (s.currentQuestion ≤ 1)
    nextBtnLabel := if s.currentQuestion ≥ TOTAL_QUESTIONS then .terminer else .ok }

/-- The function `submitForm` up to the point where it waits for `fetch`.  It
is an `async` function: an exception raised inside it rejects the promise it
returns and is not seen by the caller, so the result is always a state. -/
def submitForm (s : State) : State :=
  match saveCurrentQuestionData s with
  | .error s1 => s1
  | .ok s1 =>
    match collectAllData s1 with
    | .error s2 => s2
    | .ok (s2, data) =>
      { s2 with nextBtnDisabled := true, nextBtnLabel := .envoi, requests := s2.requests ++ [data] }

/-- The function `animateTransition` up to its `setTimeout`.  When the current
element is `null` and the next one is not, `currentEl.classList` raises a
`TypeError` after `isAnimating = true`. -/
def animateTransition (s : State) (direction : Direction) : Except State State :=
  let s1 := { s with isAnimating := true }
  let currentEl := queryQuestion s1.dom s1.currentQuestion
  let nextQuestionNum :=
    if direction = .next then s1.currentQuestion + 1 else s1.currentQuestion - 1
  match queryQuestion s1.dom nextQuestionNum with
  | none => .ok { s1 with isAnimating := false }
  | some nextEl =>
    match currentEl with
    | none => .error s1
    | some cur =>
      .ok { s1 with
        dom := modifyAt (fun q =>
          if direction = .next then { q with slideUp := true } else { q with slideDown := true })
          s1.dom cur
        timers := s1.timers ++ [.exitDone cur nextEl nextQuestionNum] }

/-- The function `nextQuestion`. -/
def nextQuestion (s : State) : Except State State :=
  if s.isAnimating then .ok s
  else
    let v := validateCurrentQuestion s
    if !v.1 then .ok v.2
    else
      match saveCurrentQuestionData v.2 with
      | .error s1 => .error s1
      | .ok s1 =>
        if s1.currentQuestion ≥ TOTAL_QUESTIONS then .ok (submitForm s1)
        else animateTransition s1 .next

/-- The function `prevQuestion`. -/
def prevQuestion (s : State) : Except State State :=
  if s.isAnimating ∨ s.currentQuestion ≤ 1 then .ok s
  else animateTransition s .prev

/-- The function `goToQuestion`. -/
def goToQuestion (s : State) (questionNumber : Int) : Except State State :=
  if s.isAnimating ∨ questionNumber < 1 ∨ questionNumber > TOTAL_QUESTIONS then .ok s
  else
    let direction : Direction := if questionNumber > s.currentQuestion then .next else .prev
    let s1 := { s with
      currentQuestion := questionNumber - (if direction = .next then 1 else -1) }
    animateTransition s1 direction

/-- The callback of a timer. -/
def runTimer (s : State) : Timer → State
  | .exitDone currentEl nextEl nextQuestionNum =>
    let s1 := { s with
      dom := modifyAt (fun q => { q with active := false, slideUp := false, slideDown := false })
        s.dom currentEl }
    let s2 := { s1 with currentQuestion := nextQuestionNum }
    let s3 := { s2 with dom := modifyAt (fun q => { q with active := true }) s2.dom nextEl }
    let s4 := updateNavButtons (updateProgress s3)
    { s4 with timers := s4.timers ++ [.enterDone] }
  | .enterDone => { s with isAnimating := false }

/-- The pending timer at position `k` fires: it leaves the list and its callback
runs. -/
def fireTimer (s : State) (k : Nat) : State :=
  match s.timers.get? k with
  | none => s
  | some t => runTimer { s with timers := s.timers.eraseIdx k } t

/-- The two `keydown` listeners on an Enter key press.  The listener that
`initInputListeners` puts on a `.tf-input` element runs first when the key is
pressed in such an element; the event then reaches the listener that
`initKeyboardNavigation` puts on the document.  An exception raised in a
listener is reported and does not stop the other listener. -/
def pressEnter (s : State) (shiftKey targetIsTfInput targetIsTextarea : Bool) : State :=
  let s1 := if targetIsTfInput then outcome (nextQuestion s) else s
  if !shiftKey && !targetIsTextarea then outcome (nextQuestion s1) else s1

/-- The steps of the page that carry the class `active`. -/
def activeSteps (dom : List Question) : List Int :=
  (dom.filter (fun q => q.active)).map (fun q => q.dataQuestion)

/-! ## Events and traces -/

/-- An event of the page: a call of one of the three navigation functions (from
a button or from a script), the firing of a pending timer, or an Enter key
press. -/
inductive Event where
  | next
  | prev
  | goTo (questionNumber : Int)
  | timer (k : Nat)
  | enter (shiftKey targetIsTfInput targetIsTextarea : Bool)

/-- The state after an event.  An exception that leaves a handler is reported by
the browser; what the handler wrote before it stays. -/
def step (s : State) : Event → State
  | .next => outcome (nextQuestion s)
  | .prev => outcome (prevQuestion s)
  | .goTo k => outcome (goToQuestion s k)
  | .timer k => fireTimer s k
  | .enter shiftKey targetIsTfInput targetIsTextarea =>
    pressEnter s shiftKey targetIsTfInput targetIsTextarea

/-- The state after a sequence of events. -/
def run : State → List Event → State
  | s, [] => s
  | s, e :: rest => run (step s e) rest

/-- The state when the script has been loaded: `currentQuestion = 1`,
`formData = {}`, `isAnimating = false`, nothing pending.  The buttons are as the
page first shows them (what the HTML sets is not in the source): no way back,
the forward button enabled. -/
def initialState (dom : List Question) : State :=
  { currentQuestion := 1, formData := [], isAnimating := false, dom := dom, shownQuestion := 1,
    prevBtnDisabled := true, nextBtnDisabled := false, nextBtnLabel := .ok, timers := [],
    requests := [] }

/-- The page has a question element for every number from 1 to
`TOTAL_QUESTIONS`. -/
def PageHasSteps (dom : List Question) : Prop :=
  ∀ n : Int, 1 ≤ n → n ≤ TOTAL_QUESTIONS → (queryQuestion dom n).isSome = true

/-! ## The typing of fields

The data model of the specification gives every field one name and one type.
On the page this says that a name used by a checkbox is used by checkboxes
only, and in the record that the property of a checkbox name is absent, the
empty string, or an array. -/

/-- The controls of the whole page, in document order. -/
def allInputs : List Question → List Input
  | [] => []
  | q :: rest => q.inputs ++ allInputs rest

/-- A value on which the checkbox branch of the loops raises no exception:
`undefined`, the empty string, or an array. -/
def checkboxSafe : Option FieldValue → Bool
  | none => true
  | some (.text s) => s == ""
  | some (.list _) => true
  | some (.file _) => false

/-- A name used by a checkbox is used by checkboxes only. -/
def CheckboxNamesApart (inputs : List Input) : Prop :=
  ∀ i ∈ inputs, ∀ j ∈ inputs, i.kind = .checkbox → j.name = i.name → j.kind = .checkbox

/-- The record holds nothing but an array (or a falsy value) under the name of
a checkbox. -/
def RecordTyped (inputs : List Input) (fd : FormData) : Prop :=
  ∀ i ∈ inputs, i.kind = .checkbox → checkboxSafe (getField fd i.name) = true

instance (inputs : List Input) : Decidable (CheckboxNamesApart inputs) := by
  unfold CheckboxNamesApart; infer_instance

instance (inputs : List Input) (fd : FormData) : Decidable (RecordTyped inputs fd) := by
  unfold RecordTyped; infer_instance

/-- The record carried by a result, normal or exceptional. -/
def recordOf : Except FormData FormData → FormData
  | .ok fd => fd
  | .error fd => fd

/-- The state after `collectAllData`, whether it returned or raised. -/
def stateAfterCollect : Except State (State × Payload) → State
  | .ok r => r.1
  | .error s => s

/-! ## The validator as the specification words it -/

/-- The text-like input types, as listed in `focusCurrentInput`: text, email,
tel, url, number. -/
def Kind.isTextLike : Kind → Bool
  | .text | .email | .tel | .url | .number => true
  | _ => false

/-- Validity of a step in the words of the specification: every required
text-like field has a non-empty trimmed value; every required single-choice
group has an option selected; on step 13 the domains group has a checked
option; every non-empty email field has the email shape the code tests. -/
def specValid (currentQuestion : Int) (inputs : List Input) : Prop :=
  (∀ i ∈ inputs, i.required = true → i.kind.isTextLike = true → trimIsEmpty i.value = false) ∧
  (∀ i ∈ inputs, i.required = true → i.kind = .radio →
    ∃ j ∈ inputs, j.name = i.name ∧ j.matchesChecked = true) ∧
  (currentQuestion = 13 → ∃ j ∈ inputs, j.name = "domains" ∧ j.matchesChecked = true) ∧
  (∀ i ∈ inputs, i.kind = .email → i.value ≠ "" → emailRegexTest i.value = true)

/-- A step made of the kinds of field the specification names: its required
controls are radio buttons or text-like inputs, and it has at most one email
input. -/
def RegistryStep (inputs : List Input) : Prop :=
  (∀ i ∈ inputs, i.required = true → i.kind = .radio ∨ i.kind.isTextLike = true) ∧
  (∀ i ∈ inputs, ∀ j ∈ inputs, i.kind = .email → j.kind = .email → i = j)

instance (inputs : List Input) : Decidable (RegistryStep inputs) := by
  unfold RegistryStep; infer_instance

/-! ## Denotation of regular expressions and of the loops (used in proofs) -/

/-- The language of a regular expression. -/
def Regex.Lang : Regex → List Char → Prop
  | .empty, _ => False
  | .eps, w => w = []
  | .chr c, w => w = [c]
  | .ncls atoms, w => ∃ c, w = [c] ∧ atoms.any (fun a => a.test c) = false
  | .seq r s, w => ∃ u v, w = u ++ v ∧ Lang r u ∧ Lang s v
  | .alt r s, w => Lang r w ∨ Lang s w
  | .star r, w => ∃ L : List (List Char), w = L.flatten ∧ ∀ u ∈ L, u ≠ [] ∧ Lang r u

/-- The value a control other than a checkbox leaves under its name, given the
value before: the selected radio button and the non-empty text overwrite. -/
def plainVal (i : Input) (cur : Option FieldValue) : Option FieldValue :=
  if i.kind = .radio then (if i.checked then some (.text i.value) else cur)
  else if i.value ≠ "" then some (.text i.value) else cur

/-- The array a checkbox starts from: the array stored, or the empty array when
the stored value is falsy. -/
def boxBase (cur : Option FieldValue) : List String :=
  match cur with
  | some (.list vs) => vs
  | _ => []

/-- The value a control leaves under its name in `saveCurrentQuestionData`,
when the record is typed. -/
def saveVal (i : Input) (cur : Option FieldValue) : Option FieldValue :=
  if i.kind = .checkbox then
    if i.checked && !(boxBase cur).contains i.value then some (.list (boxBase cur ++ [i.value]))
    else if !i.checked then some (.list ((boxBase cur).filter (fun v => v != i.value)))
    else some (.list (boxBase cur))
  else plainVal i cur

/-- The value a control leaves under its name in `collectAllData`, when the
record is typed. -/
def collectVal (i : Input) (cur : Option FieldValue) : Option FieldValue :=
  if i.kind = .checkbox then
    if i.checked then
      if !(boxBase cur).contains i.value then some (.list (boxBase cur ++ [i.value]))
      else some (.list (boxBase cur))
    else cur
  else plainVal i cur

/-- The value under `name` after the controls have been handled in order. -/
def valAfter (val : Input → Option FieldValue → Option FieldValue) (name : String) :
    List Input → Option FieldValue → Option FieldValue
  | [], cur => cur
  | i :: rest, cur => valAfter val name rest (if i.name = name then val i cur else cur)

/-- The controls for which the body of the loop of `collectAllData` writes. -/
def collectActs (i : Input) : Prop :=
  (i.kind = .radio ∧ i.checked = true) ∨ (i.kind = .checkbox ∧ i.checked = true) ∨
  (i.kind ≠ .radio ∧ i.kind ≠ .checkbox ∧ i.value ≠ "")

/-- The controls for which `plainVal` writes. -/
def plainActs (i : Input) : Prop :=
  (i.kind = .radio ∧ i.checked = true) ∨ (i.kind ≠ .radio ∧ i.value ≠ "")

/-- A value function that treats controls other than checkboxes as `plainVal`. -/
def PlainOutside (val : Input → Option FieldValue → Option FieldValue) : Prop :=
  ∀ i c, i.kind ≠ .checkbox → val i c = plainVal i c

/-- What a loop body does to a typed record: it returns normally, it changes at
most the property named by the control, the new value of that property is a
function of the old one, and it does nothing for a control outside `act`. -/
structure KeyLocal (body : FormData → Input → Except FormData FormData)
    (val : Input → Option FieldValue → Option FieldValue) (act : Input → Prop) : Prop where
  idle : ∀ fd i, ¬ act i → body fd i = .ok fd
  ok : ∀ fd i, (i.kind = .checkbox → checkboxSafe (getField fd i.name) = true) →
    ∃ fd', body fd i = .ok fd' ∧ (fd' = fd ∨ ∃ v, fd' = setField fd i.name v) ∧
      getField fd' i.name = val i (getField fd i.name)
  box : ∀ i cur, i.kind = .checkbox → checkboxSafe cur = true → checkboxSafe (val i cur) = true

/-! ## Example pages and states -/

/-- A control with no `error` class. -/
def mkInput (kind : Kind) (name value : String) (checked required tfInput : Bool) : Input :=
  { kind := kind, name := name, value := value, checked := checked, required := required,
    tfInput := tfInput, error := false }

/-- A question element; the first question carries `active`. -/
def mkQuestion (n : Int) (inputs : List Input) : Question :=
  { dataQuestion := n, inputs := inputs, active := decide (n = 1), slideUp := false,
    slideDown := false }

/-- A filled-in page with one step for each field that `collectAllData` reads:
text and email inputs, radio groups, a file input, the `domains` checkboxes on
step 13, and an optional text input on the last step. -/
def samplePage : List Question :=
  [ mkQuestion 1 [mkInput .text "fullName" "Ada Lovelace" false true true],
    mkQuestion 2 [mkInput .email "email" "ada@example.org" false true true],
    mkQuestion 3 [mkInput .radio "emailProvider" "gmail" true true false,
      mkInput .radio "emailProvider" "outlook" false true false],
    mkQuestion 4 [mkInput .tel "phone" "" false false true],
    mkQuestion 5 [mkInput .url "linkedinUrl" "" false false true],
    mkQuestion 6 [mkInput .text "currentSchool" "ENS" false true true],
    mkQuestion 7 [mkInput .text "currentProgram" "Master" false true true],
    mkQuestion 8 [mkInput .radio "currentYear" "1" false true false,
      mkInput .radio "currentYear" "2" true true false],
    mkQuestion 9 [mkInput .text "currentMajor" "Mathematics" false true true],
    mkQuestion 10 [mkInput .number "expectedGraduation" "2027" false true true],
    mkQuestion 11 [mkInput .file "cvFile" "" false false false],
    mkQuestion 12 [mkInput .radio "contractType" "stage" true true false,
      mkInput .radio "contractType" "cdi" false true false],
    mkQuestion 13 [mkInput .checkbox "domains" "tech" true false false,
      mkInput .checkbox "domains" "finance" false false false],
    mkQuestion 14 [mkInput .text "location" "Paris" false true true],
    mkQuestion 15 [mkInput .text "specificPosition" "" false false true] ]

/-- One forward navigation by the button, run to completion: the call, the
300 ms timer, the 100 ms timer. -/
def advanceOnce : List Event := [.next, .timer 0, .timer 0]

/-- Fourteen forward navigations, from step 1 to step 15. -/
def toLastStep : List Event :=
  advanceOnce ++ advanceOnce ++ advanceOnce ++ advanceOnce ++ advanceOnce ++ advanceOnce ++
  advanceOnce ++ advanceOnce ++ advanceOnce ++ advanceOnce ++ advanceOnce ++ advanceOnce ++
  advanceOnce ++ advanceOnce

/-- The sample page after the user has advanced to the last step. -/
def atLastStep : State := run (initialState samplePage) toLastStep

/-- A required text input holding only white space. -/
def blankNameInput : Input := mkInput .text "fullName" "  " false true true

/-- A one-step page whose required text input holds only white space. -/
def blankNamePage : List Question := [mkQuestion 1 [blankNameInput]]

/-- The controls of the `domains` step: `tech` checked, `finance` unchecked. -/
def domainsInputs : List Input :=
  [mkInput .checkbox "domains" "tech" true false false,
   mkInput .checkbox "domains" "finance" false false false]

/-- Two `domains` options with the same value, the first checked and the second
not. -/
def twinInputs : List Input :=
  [mkInput .checkbox "domains" "tech" true false false,
   mkInput .checkbox "domains" "tech" false false false]

/-- The `domains` step alone. -/
def domainsQuestion : Question := mkQuestion 13 domainsInputs

/-- A state on the `domains` step with a given record. -/
def domainsState (fd : FormData) : State :=
  { initialState [domainsQuestion] with currentQuestion := 13, formData := fd }

/-- The sample page at step 1 with a record from an earlier visit. -/
def revisitState : State :=
  { initialState samplePage with
    formData := [("fullName", .text "Grace Hopper"), ("domains", .list ["finance"])] }

/-! ## Theorems -/

/-! ### Regular expressions -/

theorem Regex.nullable_iff (r : Regex) : r.nullable = true ↔ r.Lang [] := by
  induction r with
  | empty => simp [Regex.nullable, Regex.Lang]
  | eps => simp [Regex.nullable, Regex.Lang]
  | chr c => simp [Regex.nullable, Regex.Lang]
  | ncls atoms => simp [Regex.nullable, Regex.Lang]
  | seq r s ihr ihs =>
    simp only [Regex.nullable, Regex.Lang, Bool.and_eq_true, ihr, ihs]
    constructor
    · rintro ⟨h1, h2⟩
      exact ⟨[], [], rfl, h1, h2⟩
    · rintro ⟨u, v, huv, h1, h2⟩
      have hu : u = [] := by
        cases u with
        | nil => rfl
        | cons a t => simp at huv
      have hv : v = [] := by
        subst hu
        simpa using huv.symm
      subst hu; subst hv
      exact ⟨h1, h2⟩
  | alt r s ihr ihs =>
    simp only [Regex.nullable, Regex.Lang, Bool.or_eq_true, ihr, ihs]
  | star r _ =>
    simp only [Regex.nullable, Regex.Lang, true_iff]
    exact ⟨[], rfl, by simp⟩

theorem Regex.deriv_iff (r : Regex) (c : Char) (w : List Char) :
    (r.deriv c).Lang w ↔ r.Lang (c :: w) := by
  induction r generalizing w with
  | empty => simp [Regex.deriv, Regex.Lang]
  | eps => simp [Regex.deriv, Regex.Lang]
  | chr d =>
    simp only [Regex.deriv, Regex.Lang]
    by_cases h : c = d
    · subst h
      simp [Regex.Lang]
    · simp [h, Regex.Lang]
  | ncls atoms =>
    simp only [Regex.deriv, Regex.Lang]
    cases hany : atoms.any (fun a => a.test c) with
    | true =>
      simp only [if_true, Regex.Lang, false_iff]
      rintro ⟨x, hx, hx2⟩
      simp only [List.cons.injEq] at hx
      rw [← hx.1, hany] at hx2
      exact Bool.noConfusion hx2
    | false =>
      simp only [Bool.false_eq_true, if_false, Regex.Lang]
      constructor
      · intro hw
        exact ⟨c, by rw [hw], hany⟩
      · rintro ⟨x, hx, _⟩
        simp only [List.cons.injEq] at hx
        exact hx.2
  | seq r s ihr ihs =>
    have key : (∃ u v, w = u ++ v ∧ (r.deriv c).Lang u ∧ s.Lang v) ∨ (r.Lang [] ∧ s.Lang (c :: w))
        ↔ ∃ u v, c :: w = u ++ v ∧ r.Lang u ∧ s.Lang v := by
      constructor
      · rintro (⟨u, v, huv, h1, h2⟩ | ⟨h1, h2⟩)
        · exact ⟨c :: u, v, by rw [huv]; rfl, (ihr u).1 h1, h2⟩
        · exact ⟨[], c :: w, rfl, h1, h2⟩
      · rintro ⟨u, v, huv, h1, h2⟩
        cases u with
        | nil =>
          right
          simp only [List.nil_append] at huv
          rw [huv]
          exact ⟨h1, h2⟩
        | cons a t =>
          left
          simp only [List.cons_append, List.cons.injEq] at huv
          obtain ⟨hac, hw⟩ := huv
          subst hac
          exact ⟨t, v, hw, (ihr t).2 h1, h2⟩
    simp only [Regex.deriv]
    cases hn : r.nullable with
    | true =>
      simp only [if_true, Regex.Lang]
      rw [← key, ihs w]
      have : r.Lang [] := (Regex.nullable_iff r).1 hn
      simp [this]
    | false =>
      simp only [Bool.false_eq_true, if_false, Regex.Lang]
      rw [← key]
      have : ¬ r.Lang [] := fun h => by
        have := (Regex.nullable_iff r).2 h
        rw [hn] at this
        exact Bool.noConfusion this
      simp [this]
  | alt r s ihr ihs =>
    simp only [Regex.deriv, Regex.Lang, ihr, ihs]
  | star r ih =>
    simp only [Regex.deriv, Regex.Lang]
    constructor
    · rintro ⟨u, v, huv, h1, L, hL, hall⟩
      refine ⟨(c :: u) :: L, ?_, ?_⟩
      · simp [huv, hL]
      · intro x hx
        rcases List.mem_cons.1 hx with h | h
        · subst h
          exact ⟨by simp, (ih u).1 h1⟩
        · exact hall x h
    · rintro ⟨L, hL, hall⟩
      cases L with
      | nil => simp at hL
      | cons x L' =>
        have hx := hall x (List.mem_cons_self _ _)
        cases x with
        | nil => exact absurd rfl hx.1
        | cons a t =>
          simp only [List.flatten_cons, List.cons_append, List.cons.injEq] at hL
          obtain ⟨hac, hw⟩ := hL
          subst hac
          exact ⟨t, L'.flatten, hw, (ih t).2 hx.2, L', rfl,
            fun y hy => hall y (List.mem_cons_of_mem _ hy)⟩

theorem Regex.rmatch_iff (r : Regex) (w : List Char) : r.rmatch w = true ↔ r.Lang w := by
  induction w generalizing r with
  | nil => exact Regex.nullable_iff r
  | cons c w ih =>
    simp only [Regex.rmatch]
    rw [ih, Regex.deriv_iff]

theorem notSpaceAt_ok (c : Char) :
    ([ClassAtom.space, ClassAtom.lit '@'].any (fun a => a.test c) = false) ↔
      (isJsWhitespace c = false ∧ c ≠ '@') := by
  simp [ClassAtom.test]

theorem lang_star_ncls (atoms : List ClassAtom) (v : List Char) :
    (Regex.star (.ncls atoms)).Lang v ↔ ∀ c ∈ v, atoms.any (fun a => a.test c) = false := by
  simp only [Regex.Lang]
  constructor
  · rintro ⟨L, hL, hall⟩ c hc
    subst hL
    obtain ⟨x, hx, hcx⟩ := List.mem_flatten.1 hc
    obtain ⟨_, d, hd, hok⟩ := hall x hx
    subst hd
    rw [List.mem_singleton] at hcx
    subst hcx
    exact hok
  · intro h
    refine ⟨v.map (fun c => [c]), ?_, ?_⟩
    · clear h
      induction v with
      | nil => rfl
      | cons a t ih => simp [← ih]
    · intro x hx
      obtain ⟨c, hc, rfl⟩ := List.mem_map.1 hx
      exact ⟨by simp, c, rfl, h c hc⟩

theorem lang_plus_ncls (atoms : List ClassAtom) (w : List Char) :
    (Regex.plus (.ncls atoms)).Lang w ↔
      w ≠ [] ∧ ∀ c ∈ w, atoms.any (fun a => a.test c) = false := by
  unfold Regex.plus
  rw [Regex.Lang]
  simp only [lang_star_ncls]
  constructor
  · rintro ⟨u, v, huv, ⟨c, hc, hok⟩, hv⟩
    subst huv; subst hc
    refine ⟨by simp, ?_⟩
    intro x hx
    rcases List.mem_append.1 hx with h | h
    · rw [List.mem_singleton] at h
      subst h
      exact hok
    · exact hv x h
  · rintro ⟨hne, hall⟩
    cases w with
    | nil => exact absurd rfl hne
    | cons a t =>
      exact ⟨[a], t, rfl, ⟨a, rfl, hall a (List.mem_cons_self _ _)⟩,
        fun c hc => hall c (List.mem_cons_of_mem _ hc)⟩

theorem lang_emailRegex (w : List Char) :
    emailRegex.Lang w ↔
      ∃ a b d, w = a ++ '@' :: (b ++ '.' :: d) ∧ a ≠ [] ∧ b ≠ [] ∧ d ≠ [] ∧
        (∀ c ∈ a, isJsWhitespace c = false ∧ c ≠ '@') ∧
        (∀ c ∈ b, isJsWhitespace c = false ∧ c ≠ '@') ∧
        (∀ c ∈ d, isJsWhitespace c = false ∧ c ≠ '@') := by
  unfold emailRegex notSpaceAt
  simp only [Regex.Lang.eq_5, Regex.Lang.eq_3, lang_plus_ncls, notSpaceAt_ok]
  constructor
  · rintro ⟨a, r1, h1, ⟨ha, hao⟩, x, r2, h2, hx, b, r3, h3, ⟨hb, hbo⟩, y, d, h4, hy, hd, hdo⟩
    subst h4; subst hy; subst h3; subst hx; subst h2; subst h1
    exact ⟨a, b, d, by simp, ha, hb, hd, hao, hbo, hdo⟩
  · rintro ⟨a, b, d, hw, ha, hb, hd, hao, hbo, hdo⟩
    exact ⟨a, '@' :: (b ++ '.' :: d), hw, ⟨ha, hao⟩, ['@'], b ++ '.' :: d, rfl, rfl,
      b, '.' :: d, rfl, ⟨hb, hbo⟩, ['.'], d, rfl, rfl, hd, hdo⟩

/-- C6 as amended: the email test accepts a value exactly when the value has no
white space, has exactly one `@`, and splits as `a@b.d` with `a`, `b` and `d`
non-empty (a character before the `@`, and after it a `.` that is neither the
first nor the last character). -/
theorem emailRegexTest_iff (value : String) :
    emailRegexTest value = true ↔
      (∀ c ∈ value.toList, isJsWhitespace c = false) ∧ value.toList.count '@' = 1 ∧
      ∃ a b d, value.toList = a ++ '@' :: (b ++ '.' :: d) ∧ a ≠ [] ∧ b ≠ [] ∧ d ≠ [] := by
  unfold emailRegexTest
  rw [Regex.rmatch_iff, lang_emailRegex]
  constructor
  · rintro ⟨a, b, d, hw, ha, hb, hd, hao, hbo, hdo⟩
    refine ⟨?_, ?_, a, b, d, hw, ha, hb, hd⟩
    · intro c hc
      rw [hw] at hc
      simp only [List.mem_append, List.mem_cons] at hc
      rcases hc with h | h | h | h | h
      · exact (hao c h).1
      · subst h; decide
      · exact (hbo c h).1
      · subst h; decide
      · exact (hdo c h).1
    · rw [hw]
      have ca : a.count '@' = 0 := List.count_eq_zero.2 (fun h => (hao _ h).2 rfl)
      have cb : b.count '@' = 0 := List.count_eq_zero.2 (fun h => (hbo _ h).2 rfl)
      have cd : d.count '@' = 0 := List.count_eq_zero.2 (fun h => (hdo _ h).2 rfl)
      simp [List.count_append, List.count_cons, ca, cb, cd]
  · rintro ⟨hws, hcount, a, b, d, hw, ha, hb, hd⟩
    rw [hw] at hcount hws
    simp only [List.count_append, List.count_cons, beq_self_eq_true, if_true,
      show (('.' : Char) == '@') = false by decide, Bool.false_eq_true, if_false] at hcount
    have ca : a.count '@' = 0 := by omega
    have cb : b.count '@' = 0 := by omega
    have cd : d.count '@' = 0 := by omega
    refine ⟨a, b, d, hw, ha, hb, hd, ?_, ?_, ?_⟩
    · intro c hc
      exact ⟨hws c (by simp [hc]), fun h => List.count_eq_zero.1 ca (h ▸ hc)⟩
    · intro c hc
      exact ⟨hws c (by simp [hc]), fun h => List.count_eq_zero.1 cb (h ▸ hc)⟩
    · intro c hc
      exact ⟨hws c (by simp [hc]), fun h => List.count_eq_zero.1 cd (h ▸ hc)⟩

/-! ### Validation -/

theorem anyCheckedNamed_iff (inputs : List Input) (name : String) :
    anyCheckedNamed inputs name = true ↔
      ∃ j ∈ inputs, j.name = name ∧ j.matchesChecked = true := by
  simp [anyCheckedNamed, List.any_eq_true]

theorem checkAllRequired_fst (all inputs : List Input) :
    (checkAllRequired all inputs).1 = true ↔
      ∀ i ∈ inputs, (checkRequired all i).1 = true := by
  induction inputs with
  | nil => simp [checkAllRequired]
  | cons a t ih => simp [checkAllRequired, ih]

theorem checkAllRequired_get (all : List Input) :
    ∀ (inputs : List Input) (j : Nat) (i : Input), inputs.get? j = some i →
      (checkAllRequired all inputs).2.get? j = some (checkRequired all i).2
  | [], _, _, h => by simp at h
  | a :: t, 0, i, h => by
    simp only [List.get?_cons_zero, Option.some.injEq] at h
    subst h
    simp [checkAllRequired]
  | a :: t, j + 1, i, h => by
    simp only [List.get?_cons_succ] at h
    simpa [checkAllRequired] using checkAllRequired_get all t j i h

theorem queryEmail_some : ∀ (inputs : List Input) (k : Nat), queryEmail inputs = some k →
    ∃ e, inputs.get? k = some e ∧ e.kind = .email
  | [], _, h => by simp [queryEmail] at h
  | a :: t, k, h => by
    unfold queryEmail at h
    by_cases hk : a.kind = .email
    · simp only [hk, if_true, Option.some.injEq] at h
      subst h
      exact ⟨a, rfl, hk⟩
    · simp only [hk, if_false, Option.map_eq_some'] at h
      obtain ⟨k', hk', rfl⟩ := h
      obtain ⟨e, he, hek⟩ := queryEmail_some t k' hk'
      exact ⟨e, by simpa using he, hek⟩

theorem queryEmail_none : ∀ (inputs : List Input), queryEmail inputs = none →
    ∀ i ∈ inputs, i.kind ≠ .email
  | [], _ => by simp
  | a :: t, h => by
    unfold queryEmail at h
    by_cases hk : a.kind = .email
    · simp [hk] at h
    · simp only [hk, if_false, Option.map_eq_none'] at h
      intro i hi
      rcases List.mem_cons.1 hi with rfl | hi
      · exact hk
      · exact queryEmail_none t h i hi

theorem checkAllRequired_snd (all inputs : List Input) :
    (checkAllRequired all inputs).2 = inputs.map (fun i => (checkRequired all i).2) := by
  induction inputs with
  | nil => rfl
  | cons a t ih => simp [checkAllRequired, ih]

theorem checkRequired_kind (all : List Input) (i : Input) :
    (checkRequired all i).2.kind = i.kind ∧ (checkRequired all i).2.value = i.value := by
  unfold checkRequired
  split_ifs <;> exact ⟨rfl, rfl⟩

theorem queryEmail_map (f : Input → Input) (hf : ∀ i, (f i).kind = i.kind) :
    ∀ inputs : List Input, queryEmail (inputs.map f) = queryEmail inputs
  | [] => rfl
  | a :: t => by
    simp only [List.map_cons, queryEmail, hf a, queryEmail_map f hf t]

theorem checkEmail_fst (inputs : List Input) :
    (checkEmail inputs).1 = true ↔
      ∀ k e, queryEmail inputs = some k → inputs.get? k = some e →
        (e.value = "" ∨ emailRegexTest e.value = true) := by
  unfold checkEmail
  cases hq : queryEmail inputs with
  | none => simp
  | some k =>
    obtain ⟨e, he, _⟩ := queryEmail_some inputs k hq
    simp only [he]
    by_cases hbad : e.value ≠ "" ∧ emailRegexTest e.value = false
    · rw [if_pos hbad]
      constructor
      · intro h; exact Bool.noConfusion h
      · intro h
        rcases h k e rfl he with h1 | h1
        · exact absurd h1 hbad.1
        · rw [hbad.2] at h1; exact Bool.noConfusion h1
    · rw [if_neg hbad]
      simp only [true_iff]
      intro k' e' hk' he'
      simp only [Option.some.injEq] at hk'
      subst hk'
      rw [he] at he'
      simp only [Option.some.injEq] at he'
      subst he'
      by_cases hv : e.value = ""
      · exact Or.inl hv
      · right
        cases hr : emailRegexTest e.value with
        | true => rfl
        | false => exact absurd ⟨hv, hr⟩ hbad

theorem checkEmail_fst_map (f : Input → Input)
    (hf : ∀ i, (f i).kind = i.kind ∧ (f i).value = i.value) (inputs : List Input) :
    (checkEmail (inputs.map f)).1 = true ↔ (checkEmail inputs).1 = true := by
  rw [checkEmail_fst, checkEmail_fst, queryEmail_map f (fun i => (hf i).1)]
  constructor
  · intro h k e hk he
    have := h k (f e) hk (by simp [List.get?_eq_getElem?, List.getElem?_map] at he ⊢; exact ⟨e, he, rfl⟩)
    rwa [(hf e).2] at this
  · intro h k e hk he
    simp only [List.get?_eq_getElem?, List.getElem?_map, Option.map_eq_some'] at he
    obtain ⟨e0, he0, rfl⟩ := he
    rw [(hf e0).2]
    exact h k e0 hk (by simpa [List.get?_eq_getElem?] using he0)

theorem validateQuestion_fst (cq : Int) (el : Question) :
    (validateQuestion cq el).1 = true ↔
      (∀ i ∈ el.inputs, (checkRequired el.inputs i).1 = true) ∧
      (checkEmail el.inputs).1 = true ∧ checkDomains cq el.inputs = true := by
  unfold validateQuestion
  simp only [Bool.and_eq_true, checkAllRequired_fst, checkAllRequired_snd, and_assoc]
  rw [checkEmail_fst_map _ (checkRequired_kind el.inputs)]

theorem validateCurrentQuestion_fst (s : State) (k : Nat) (el : Question)
    (hq : queryQuestion s.dom s.currentQuestion = some k) (hel : s.dom.get? k = some el) :
    (validateCurrentQuestion s).1 = (validateQuestion s.currentQuestion el).1 := by
  unfold validateCurrentQuestion
  simp only [hq, hel]

theorem checkRequired_iff_spec (inputs : List Input) (i : Input)
    (hk : i.required = true → i.kind = .radio ∨ i.kind.isTextLike = true) :
    (checkRequired inputs i).1 = true ↔
      (i.required = true → i.kind.isTextLike = true → trimIsEmpty i.value = false) ∧
      (i.required = true → i.kind = .radio →
        ∃ j ∈ inputs, j.name = i.name ∧ j.matchesChecked = true) := by
  unfold checkRequired Input.isRequiredInput
  cases hr : i.required with
  | false => simp
  | true =>
    rcases hk hr with hrad | htl
    · simp [hrad, Kind.isTextLike, anyCheckedNamed_iff]
    · have h1 : i.kind ≠ .radio := by
        intro h; rw [h] at htl; exact Bool.noConfusion htl
      have h2 : i.kind ≠ .textarea := by
        intro h; rw [h] at htl; exact Bool.noConfusion htl
      cases ht : trimIsEmpty i.value <;> simp [h1, h2, htl, ht]

theorem checkEmail_iff_spec (inputs : List Input)
    (h1 : ∀ i ∈ inputs, ∀ j ∈ inputs, i.kind = .email → j.kind = .email → i = j) :
    (checkEmail inputs).1 = true ↔
      ∀ i ∈ inputs, i.kind = .email → i.value ≠ "" → emailRegexTest i.value = true := by
  rw [checkEmail_fst]
  constructor
  · intro h i hi hik hv
    cases hq : queryEmail inputs with
    | none => exact absurd hik (queryEmail_none inputs hq i hi)
    | some k =>
      obtain ⟨e, he, hek⟩ := queryEmail_some inputs k hq
      have hmem : e ∈ inputs := List.get?_mem he
      have : i = e := h1 i hi e hmem hik hek
      subst this
      rcases h k i hq he with h' | h'
      · exact absurd h' hv
      · exact h'
  · intro h k e hk he
    obtain ⟨e', he', hek⟩ := queryEmail_some inputs k hk
    rw [he] at he'
    simp only [Option.some.injEq] at he'
    subst he'
    by_cases hv : e.value = ""
    · exact Or.inl hv
    · exact Or.inr (h e (List.get?_mem he) hek hv)

/-- C5: on the question element of the current step, if the step is made of the
kinds of field the specification names, `validateCurrentQuestion` returns
`true` exactly when the step is valid in the words of the specification; and on
step 13 with no `domains` option checked it returns `false` whatever the other
controls hold. -/
theorem validate_iff_specValid (s : State) (k : Nat) (el : Question)
    (hq : queryQuestion s.dom s.currentQuestion = some k) (hel : s.dom.get? k = some el) :
    (RegistryStep el.inputs →
      ((validateCurrentQuestion s).1 = true ↔ specValid s.currentQuestion el.inputs)) ∧
    (s.currentQuestion = 13 →
      (∀ j ∈ el.inputs, j.name = "domains" → j.matchesChecked = false) →
      (validateCurrentQuestion s).1 = false) := by
  rw [validateCurrentQuestion_fst s k el hq hel]
  constructor
  · rintro ⟨hkinds, hemail⟩
    rw [validateQuestion_fst, checkEmail_iff_spec el.inputs hemail]
    unfold specValid checkDomains
    have hreq : (∀ i ∈ el.inputs, (checkRequired el.inputs i).1 = true) ↔
        (∀ i ∈ el.inputs, i.required = true → i.kind.isTextLike = true →
          trimIsEmpty i.value = false) ∧
        (∀ i ∈ el.inputs, i.required = true → i.kind = .radio →
          ∃ j ∈ el.inputs, j.name = i.name ∧ j.matchesChecked = true) := by
      constructor
      · intro h
        exact ⟨fun i hi => ((checkRequired_iff_spec el.inputs i (hkinds i hi)).1 (h i hi)).1,
          fun i hi => ((checkRequired_iff_spec el.inputs i (hkinds i hi)).1 (h i hi)).2⟩
      · rintro ⟨ha, hb⟩ i hi
        exact (checkRequired_iff_spec el.inputs i (hkinds i hi)).2 ⟨ha i hi, hb i hi⟩
    rw [hreq]
    by_cases h13 : s.currentQuestion = 13
    · simp only [h13, if_true, anyCheckedNamed_iff, true_implies]
      tauto
    · simp only [h13, if_false, false_implies]
      tauto
  · intro h13 hnone
    cases hv : (validateQuestion s.currentQuestion el).1 with
    | false => rfl
    | true =>
      have hd := ((validateQuestion_fst _ _).1 hv).2.2
      unfold checkDomains at hd
      rw [if_pos h13, anyCheckedNamed_iff] at hd
      obtain ⟨j, hj, hn, hc⟩ := hd
      rw [hnone j hj hn] at hc
      exact Bool.noConfusion hc

theorem modifyInput_get_error (f : Input → Input) (hf : ∀ i, i.error = true → (f i).error = true) :
    ∀ (inputs : List Input) (k j : Nat) (i : Input), inputs.get? j = some i → i.error = true →
      ∃ i', (modifyInput f inputs k).get? j = some i' ∧ i'.error = true
  | [], _, _, _, h, _ => by simp at h
  | a :: t, 0, 0, i, h, he => by
    simp only [List.get?_cons_zero, Option.some.injEq] at h
    subst h
    exact ⟨f a, rfl, hf a he⟩
  | a :: t, 0, j + 1, i, h, he => ⟨i, h, he⟩
  | a :: t, k + 1, 0, i, h, he => ⟨i, h, he⟩
  | a :: t, k + 1, j + 1, i, h, he => by
    simp only [List.get?_cons_succ] at h
    simpa [modifyInput] using modifyInput_get_error f hf t k j i h he

theorem checkEmail_get_error (inputs : List Input) (j : Nat) (i : Input)
    (h : inputs.get? j = some i) (he : i.error = true) :
    ∃ i', (checkEmail inputs).2.get? j = some i' ∧ i'.error = true := by
  unfold checkEmail
  split
  · exact ⟨i, h, he⟩
  · split
    · exact ⟨i, h, he⟩
    · split
      · exact modifyInput_get_error _ (fun _ _ => rfl) inputs _ j i h he
      · exact ⟨i, h, he⟩

theorem modifyAt_get (f : Question → Question) :
    ∀ (dom : List Question) (k : Nat) (el : Question), dom.get? k = some el →
      (modifyAt f dom k).get? k = some (f el)
  | [], _, _, h => by simp at h
  | q :: rest, 0, el, h => by
    simp only [List.get?_cons_zero, Option.some.injEq] at h
    subst h; rfl
  | q :: rest, k + 1, el, h => by
    simp only [List.get?_cons_succ] at h
    simpa [modifyAt] using modifyAt_get f rest k el h

theorem activeSteps_modifyAt (f : Question → Question)
    (hf : ∀ q, (f q).active = q.active ∧ (f q).dataQuestion = q.dataQuestion) :
    ∀ (dom : List Question) (k : Nat), activeSteps (modifyAt f dom k) = activeSteps dom
  | [], _ => rfl
  | q :: rest, 0 => by
    simp only [modifyAt, activeSteps, List.filter_cons, (hf q).1]
    split <;> simp [(hf q).2]
  | q :: rest, k + 1 => by
    have ih := activeSteps_modifyAt f hf rest k
    simp only [activeSteps] at ih
    simp only [modifyAt, activeSteps, List.filter_cons]
    split <;> simp [ih]

theorem checkRequired_textLike_empty (all : List Input) (input : Input)
    (hreq : input.required = true) (hkind : input.kind.isTextLike = true)
    (hempty : trimIsEmpty input.value = true) :
    (checkRequired all input).1 = false ∧ (checkRequired all input).2.error = true := by
  have h1 : input.kind ≠ .radio := by
    intro h; rw [h] at hkind; exact Bool.noConfusion hkind
  have h2 : input.kind ≠ .textarea := by
    intro h; rw [h] at hkind; exact Bool.noConfusion hkind
  simp [checkRequired, Input.isRequiredInput, hreq, h1, h2, hempty]

/-- C1: when no transition runs and the question element of the current step
has a required text-like input whose trimmed value is empty, `nextQuestion`
returns normally with `currentQuestion`, `isAnimating`, `formData`, the pending
requests, the pending timers and the active steps unchanged, and that input
carries the class `error` afterwards. -/
theorem nextQuestion_blocked (s : State) (k j : Nat) (el : Question) (input : Input)
    (hanim : s.isAnimating = false)
    (hq : queryQuestion s.dom s.currentQuestion = some k) (hel : s.dom.get? k = some el)
    (hin : el.inputs.get? j = some input)
    (hreq : input.required = true) (hkind : input.kind.isTextLike = true)
    (hempty : trimIsEmpty input.value = true) :
    ∃ s', nextQuestion s = .ok s' ∧
      s'.currentQuestion = s.currentQuestion ∧ s'.isAnimating = false ∧
      s'.formData = s.formData ∧ s'.requests = s.requests ∧ s'.timers = s.timers ∧
      activeSteps s'.dom = activeSteps s.dom ∧
      ∃ el' input', s'.dom.get? k = some el' ∧ el'.inputs.get? j = some input' ∧
        input'.error = true := by
  have hbad := checkRequired_textLike_empty el.inputs input hreq hkind hempty
  have hv : (validateQuestion s.currentQuestion el).1 = false := by
    unfold validateQuestion
    have : (checkAllRequired el.inputs el.inputs).1 = false := by
      cases h : (checkAllRequired el.inputs el.inputs).1 with
      | false => rfl
      | true =>
        have := (checkAllRequired_fst _ _).1 h input (List.get?_mem hin)
        rw [hbad.1] at this
        exact Bool.noConfusion this
    simp [this]
  have hget := checkAllRequired_get el.inputs el.inputs j input hin
  obtain ⟨i', hi', hie⟩ := checkEmail_get_error _ j _ hget hbad.2
  refine ⟨(validateCurrentQuestion s).2, ?_, ?_⟩
  · unfold nextQuestion
    simp only [hanim, Bool.false_eq_true, if_false]
    have : (validateCurrentQuestion s).1 = false := by
      unfold validateCurrentQuestion
      simp only [hq, hel, hv]
    simp [this]
  · have hs : (validateCurrentQuestion s).2 =
        { s with dom := modifyAt (fun q => (validateQuestion s.currentQuestion q).2) s.dom k } := by
      unfold validateCurrentQuestion
      simp only [hq, hel]
    rw [hs]
    refine ⟨rfl, hanim, rfl, rfl, rfl, ?_, ?_⟩
    · exact activeSteps_modifyAt (fun q => (validateQuestion s.currentQuestion q).2)
        (fun q => ⟨rfl, rfl⟩) s.dom k
    · exact ⟨_, i', modifyAt_get _ s.dom k el hel, hi', hie⟩

/-! ### The answer record -/

theorem getField_setField_same (fd : FormData) (n : String) (v : FieldValue) :
    getField (setField fd n v) n = some v := by
  induction fd with
  | nil => simp [setField, getField]
  | cons p rest ih =>
    obtain ⟨k, x⟩ := p
    by_cases h : k = n
    · simp [setField, getField, h]
    · simp [setField, getField, h, ih]

theorem getField_setField_ne (fd : FormData) (n m : String) (v : FieldValue) (h : m ≠ n) :
    getField (setField fd n v) m = getField fd m := by
  induction fd with
  | nil => simp [setField, getField, Ne.symm h]
  | cons p rest ih =>
    obtain ⟨k, x⟩ := p
    by_cases hk : k = n
    · subst hk
      simp [setField, getField, Ne.symm h]
    · by_cases hm : k = m
      · subst hm
        simp [setField, getField, hk]
      · simp [setField, getField, hk, hm, ih]

theorem setField_setField (fd : FormData) (n : String) (v w : FieldValue) :
    setField (setField fd n v) n w = setField fd n w := by
  induction fd with
  | nil => simp [setField]
  | cons p rest ih =>
    obtain ⟨k, x⟩ := p
    by_cases hk : k = n
    · simp [setField, hk]
    · simp [setField, hk, ih]

theorem getField_ne_none_iff (fd : FormData) (n : String) :
    getField fd n ≠ none ↔ n ∈ fd.map Prod.fst := by
  induction fd with
  | nil => simp [getField]
  | cons p rest ih =>
    obtain ⟨k, x⟩ := p
    by_cases hk : k = n
    · simp [getField, hk]
    · simp only [getField, hk, if_false, ih, List.map_cons, List.mem_cons]
      constructor
      · exact fun h => Or.inr h
      · rintro (h | h)
        · exact absurd h.symm hk
        · exact h

theorem keys_setField_of_mem (fd : FormData) (n : String) (v : FieldValue)
    (h : n ∈ fd.map Prod.fst) : (setField fd n v).map Prod.fst = fd.map Prod.fst := by
  induction fd with
  | nil => simp at h
  | cons p rest ih =>
    obtain ⟨k, x⟩ := p
    by_cases hk : k = n
    · simp [setField, hk]
    · have : n ∈ rest.map Prod.fst := by
        simp only [List.map_cons, List.mem_cons] at h
        rcases h with h | h
        · exact absurd h.symm hk
        · exact h
      simp [setField, hk, ih this]

theorem keys_setField_of_not_mem (fd : FormData) (n : String) (v : FieldValue)
    (h : n ∉ fd.map Prod.fst) : (setField fd n v).map Prod.fst = fd.map Prod.fst ++ [n] := by
  induction fd with
  | nil => simp [setField]
  | cons p rest ih =>
    obtain ⟨k, x⟩ := p
    simp only [List.map_cons, List.mem_cons, not_or] at h
    have hk : k ≠ n := fun e => h.1 e.symm
    simp [setField, hk, ih h.2]

theorem keys_nodup_setField (fd : FormData) (n : String) (v : FieldValue)
    (h : (fd.map Prod.fst).Nodup) : ((setField fd n v).map Prod.fst).Nodup := by
  by_cases hm : n ∈ fd.map Prod.fst
  · rw [keys_setField_of_mem fd n v hm]; exact h
  · rw [keys_setField_of_not_mem fd n v hm]
    exact List.nodup_append.2 ⟨h, List.nodup_singleton n, by
      intro a ha hb
      rw [List.mem_singleton] at hb
      subst hb
      exact hm ha⟩

theorem formData_ext : ∀ (a b : FormData), a.map Prod.fst = b.map Prod.fst →
    (a.map Prod.fst).Nodup → (∀ n, getField a n = getField b n) → a = b
  | [], [], _, _, _ => rfl
  | [], _ :: _, h, _, _ => by simp at h
  | _ :: _, [], h, _, _ => by simp at h
  | (k, x) :: ra, (k', y) :: rb, hk, hn, hg => by
    simp only [List.map_cons, List.cons.injEq] at hk
    obtain ⟨hkk, hrest⟩ := hk
    subst hkk
    have hxy : x = y := by
      have := hg k
      simpa [getField] using this
    subst hxy
    simp only [List.map_cons, List.nodup_cons] at hn
    have : ra = rb := formData_ext ra rb hrest hn.2 (by
      intro n
      by_cases hkn : k = n
      · subst hkn
        have h1 : getField ra k = none := by
          by_contra hne
          exact hn.1 ((getField_ne_none_iff ra k).1 hne)
        have h2 : getField rb k = none := by
          by_contra hne
          exact hn.1 (hrest ▸ (getField_ne_none_iff rb k).1 hne)
        rw [h1, h2]
      · have := hg n
        simpa [getField, hkn] using this)
    rw [this]

theorem checkboxSafe_cases (cur : Option FieldValue) (h : checkboxSafe cur = true) :
    (truthy cur = false ∧ boxBase cur = []) ∨ ∃ vs, cur = some (.list vs) := by
  cases cur with
  | none => exact Or.inl ⟨rfl, rfl⟩
  | some v =>
    cases v with
    | text s =>
      simp only [checkboxSafe, beq_iff_eq] at h
      subst h
      exact Or.inl ⟨by decide, rfl⟩
    | list vs => exact Or.inr ⟨vs, rfl⟩
    | file f => exact Bool.noConfusion h

theorem saveInput_keyLocal : KeyLocal saveInput saveVal (fun _ => True) where
  idle := fun _ _ h => absurd trivial h
  ok := by
    intro fd i hsafe
    by_cases hr : i.kind = .radio
    · have hc : i.kind ≠ .checkbox := by rw [hr]; decide
      cases hch : i.checked with
      | true =>
        refine ⟨setField fd i.name (.text i.value), ?_, Or.inr ⟨_, rfl⟩, ?_⟩
        · simp [saveInput, hr, hch]
        · simp [getField_setField_same, saveVal, plainVal, hr, hch]
      | false =>
        refine ⟨fd, ?_, Or.inl rfl, ?_⟩
        · simp [saveInput, hr, hch]
        · simp [saveVal, plainVal, hr, hch]
    · by_cases hc : i.kind = .checkbox
      · rcases checkboxSafe_cases _ (hsafe hc) with ⟨hf, hb⟩ | ⟨vs, hvs⟩
        · cases hch : i.checked with
          | true =>
            refine ⟨setField fd i.name (.list [i.value]), ?_, Or.inr ⟨_, rfl⟩, ?_⟩
            · simp [saveInput, hc, hf, hch, getField_setField_same, setField_setField]
            · simp [getField_setField_same, saveVal, hc, hch, hb]
          | false =>
            refine ⟨setField fd i.name (.list []), ?_, Or.inr ⟨_, rfl⟩, ?_⟩
            · simp [saveInput, hc, hf, hch, getField_setField_same, setField_setField]
            · simp [getField_setField_same, saveVal, hc, hch, hb]
        · cases hch : i.checked with
          | true =>
            by_cases hin : i.value ∈ vs
            · refine ⟨fd, ?_, Or.inl rfl, ?_⟩
              · simp [saveInput, hc, hvs, hch, hin, truthy]
              · simp [saveVal, hc, hch, hvs, boxBase, hin]
            · refine ⟨setField fd i.name (.list (vs ++ [i.value])), ?_, Or.inr ⟨_, rfl⟩, ?_⟩
              · simp [saveInput, hc, hvs, hch, hin, truthy]
              · simp [getField_setField_same, saveVal, hc, hch, hvs, boxBase, hin]
          | false =>
            refine ⟨setField fd i.name (.list (vs.filter (fun v => v != i.value))), ?_,
              Or.inr ⟨_, rfl⟩, ?_⟩
            · simp [saveInput, hc, hvs, hch, truthy]
            · simp [getField_setField_same, saveVal, hc, hch, hvs, boxBase]
      · by_cases hv : i.value = ""
        · refine ⟨fd, ?_, Or.inl rfl, ?_⟩
          · simp [saveInput, hr, hc, hv]
          · simp [saveVal, plainVal, hr, hc, hv]
        · refine ⟨setField fd i.name (.text i.value), ?_, Or.inr ⟨_, rfl⟩, ?_⟩
          · simp [saveInput, hr, hc, hv]
          · simp [getField_setField_same, saveVal, plainVal, hr, hc, hv]
  box := by
    intro i cur hc _
    simp only [saveVal, hc, if_true]
    split_ifs <;> rfl

theorem collectInput_keyLocal : KeyLocal collectInput collectVal collectActs where
  idle := by
    intro fd i h
    unfold collectActs at h
    simp only [not_or] at h
    obtain ⟨h1, h2, h3⟩ := h
    unfold collectInput
    rw [if_neg h1, if_neg h2, if_neg h3]
  ok := by
    intro fd i hsafe
    by_cases hr : i.kind = .radio
    · have hc : i.kind ≠ .checkbox := by rw [hr]; decide
      cases hch : i.checked with
      | true =>
        refine ⟨setField fd i.name (.text i.value), ?_, Or.inr ⟨_, rfl⟩, ?_⟩
        · simp [collectInput, hr, hch]
        · simp [getField_setField_same, collectVal, plainVal, hr, hch]
      | false =>
        refine ⟨fd, ?_, Or.inl rfl, ?_⟩
        · simp [collectInput, hr, hch]
        · simp [collectVal, plainVal, hr, hch]
    · by_cases hc : i.kind = .checkbox
      · cases hch : i.checked with
        | false =>
          refine ⟨fd, ?_, Or.inl rfl, ?_⟩
          · simp [collectInput, hc, hch]
          · simp [collectVal, hc, hch]
        | true =>
          rcases checkboxSafe_cases _ (hsafe hc) with ⟨hf, hb⟩ | ⟨vs, hvs⟩
          · refine ⟨setField fd i.name (.list [i.value]), ?_, Or.inr ⟨_, rfl⟩, ?_⟩
            · simp [collectInput, hc, hf, hch, getField_setField_same, setField_setField]
            · simp [getField_setField_same, collectVal, hc, hch, hb]
          · by_cases hin : i.value ∈ vs
            · refine ⟨fd, ?_, Or.inl rfl, ?_⟩
              · simp [collectInput, hc, hvs, hch, hin, truthy]
              · simp [collectVal, hc, hch, hvs, boxBase, hin]
            · refine ⟨setField fd i.name (.list (vs ++ [i.value])), ?_, Or.inr ⟨_, rfl⟩, ?_⟩
              · simp [collectInput, hc, hvs, hch, hin, truthy]
              · simp [getField_setField_same, collectVal, hc, hch, hvs, boxBase, hin]
      · by_cases hv : i.value = ""
        · refine ⟨fd, ?_, Or.inl rfl, ?_⟩
          · simp [collectInput, hr, hc, hv]
          · simp [collectVal, plainVal, hr, hc, hv]
        · refine ⟨setField fd i.name (.text i.value), ?_, Or.inr ⟨_, rfl⟩, ?_⟩
          · simp [collectInput, hr, hc, hv]
          · simp [getField_setField_same, collectVal, plainVal, hr, hc, hv]
  box := by
    intro i cur hc hs
    simp only [collectVal, hc, if_true]
    split_ifs
    · rfl
    · rfl
    · exact hs

theorem getField_setField_ne_none (fd : FormData) (m n : String) (v : FieldValue)
    (h : getField fd n ≠ none) : getField (setField fd m v) n ≠ none := by
  by_cases hmn : n = m
  · subst hmn
    rw [getField_setField_same]
    exact Option.some_ne_none v
  · rw [getField_setField_ne fd m n v hmn]
    exact h

theorem saveInput_keeps (fd : FormData) (i : Input) (n : String)
    (h : getField fd n ≠ none) : getField (recordOf (saveInput fd i)) n ≠ none := by
  have h1 : ∀ v, getField (setField fd i.name v) n ≠ none :=
    fun v => getField_setField_ne_none fd _ n v h
  unfold saveInput
  split
  · split <;> first | exact h1 _ | exact h
  · split
    · generalize hg : (if truthy (getField fd i.name) = true then fd
          else setField fd i.name (.list [])) = fd1
      have hk1 : getField fd1 n ≠ none := by
        rw [← hg]
        split <;> first | exact h | exact h1 _
      dsimp only
      repeat' split
      all_goals first
        | exact hk1
        | exact getField_setField_ne_none fd1 _ n _ hk1
    · split <;> first | exact h1 _ | exact h

theorem collectInput_keeps (fd : FormData) (i : Input) (n : String)
    (h : getField fd n ≠ none) : getField (recordOf (collectInput fd i)) n ≠ none := by
  have h1 : ∀ v, getField (setField fd i.name v) n ≠ none :=
    fun v => getField_setField_ne_none fd _ n v h
  unfold collectInput
  split
  · exact h1 _
  · split
    · generalize hg : (if truthy (getField fd i.name) = true then fd
          else setField fd i.name (.list [])) = fd1
      have hk1 : getField fd1 n ≠ none := by
        rw [← hg]
        split <;> first | exact h | exact h1 _
      dsimp only
      repeat' split
      all_goals first
        | exact hk1
        | exact getField_setField_ne_none fd1 _ n _ hk1
    · split <;> first | exact h1 _ | exact h

theorem forEachInput_keeps (body : FormData → Input → Except FormData FormData)
    (hb : ∀ fd i n, getField fd n ≠ none → getField (recordOf (body fd i)) n ≠ none)
    (n : String) : ∀ (ops : List Input) (fd : FormData), getField fd n ≠ none →
      getField (recordOf (forEachInput body fd ops)) n ≠ none
  | [], fd, h => h
  | i :: rest, fd, h => by
    have hi := hb fd i n h
    unfold forEachInput
    cases hres : body fd i with
    | ok fd1 =>
      rw [hres] at hi
      exact forEachInput_keeps body hb n rest fd1 hi
    | error fd1 =>
      rw [hres] at hi
      exact hi

theorem forEachInput_ok {body : FormData → Input → Except FormData FormData}
    {val : Input → Option FieldValue → Option FieldValue} {act : Input → Prop}
    (hK : KeyLocal body val act) (all : List Input) (hap : CheckboxNamesApart all) :
    ∀ (ops : List Input) (fd : FormData), (∀ i ∈ ops, i ∈ all) → RecordTyped all fd →
      ∃ fd', forEachInput body fd ops = .ok fd' ∧ RecordTyped all fd' ∧
        (∀ n, getField fd' n = valAfter val n ops (getField fd n)) ∧
        ((fd.map Prod.fst).Nodup → (fd'.map Prod.fst).Nodup) ∧
        ((∀ i ∈ ops, act i → getField fd i.name ≠ none) → fd'.map Prod.fst = fd.map Prod.fst)
  | [], fd, _, ht => ⟨fd, rfl, ht, fun _ => rfl, fun h => h, fun _ => rfl⟩
  | i :: rest, fd, hsub, ht => by
    have hi : i ∈ all := hsub i (List.mem_cons_self _ _)
    obtain ⟨fd1, hres, hshape, hget⟩ := hK.ok fd i (fun hc => ht i hi hc)
    have hother : ∀ m, m ≠ i.name → getField fd1 m = getField fd m := by
      intro m hm
      rcases hshape with h | ⟨v, h⟩
      · rw [h]
      · rw [h, getField_setField_ne fd i.name m v hm]
    have ht1 : RecordTyped all fd1 := by
      intro j hj hjc
      by_cases hn : j.name = i.name
      · have hic : i.kind = .checkbox := hap j hj i hi hjc hn.symm
        rw [hn, hget]
        exact hK.box i _ hic (ht i hi hic)
      · rw [hother j.name hn]
        exact ht j hj hjc
    obtain ⟨fd2, hres2, ht2, hget2, hnd2, hkeys2⟩ :=
      forEachInput_ok hK all hap rest fd1 (fun j hj => hsub j (List.mem_cons_of_mem _ hj)) ht1
    refine ⟨fd2, ?_, ht2, ?_, ?_, ?_⟩
    · unfold forEachInput
      rw [hres]
      exact hres2
    · intro n
      rw [hget2 n]
      simp only [valAfter]
      by_cases hn : i.name = n
      · subst hn
        rw [hget, if_pos rfl]
      · rw [if_neg hn, hother n (Ne.symm hn)]
    · intro hnd
      apply hnd2
      rcases hshape with h | ⟨v, h⟩
      · rw [h]; exact hnd
      · rw [h]; exact keys_nodup_setField fd i.name v hnd
    · intro hpresent
      have hk1 : fd1.map Prod.fst = fd.map Prod.fst := by
        by_cases ha : act i
        · rcases hshape with h | ⟨v, h⟩
          · rw [h]
          · rw [h]
            exact keys_setField_of_mem fd i.name v
              ((getField_ne_none_iff fd i.name).1 (hpresent i (List.mem_cons_self _ _) ha))
        · have := hK.idle fd i ha
          rw [hres] at this
          injection this with this
          rw [this]
      rw [← hk1]
      apply hkeys2
      intro j hj haj
      rw [getField_ne_none_iff, hk1, ← getField_ne_none_iff]
      exact hpresent j (List.mem_cons_of_mem _ hj) haj

theorem boxBase_list (vs : List String) : boxBase (some (.list vs)) = vs := rfl

theorem boxBase_saveVal (i : Input) (cur : Option FieldValue) (hc : i.kind = .checkbox)
    (v : String) :
    v ∈ boxBase (saveVal i cur) ↔
      if i.checked = true then (v ∈ boxBase cur ∨ v = i.value)
      else (v ∈ boxBase cur ∧ v ≠ i.value) := by
  unfold saveVal
  rw [if_pos hc]
  generalize boxBase cur = B
  cases hch : i.checked with
  | true =>
    by_cases hin : i.value ∈ B
    · have hcont : B.contains i.value = true := by simpa using hin
      simp only [hcont, Bool.not_true, Bool.and_false, Bool.false_eq_true, if_false,
        boxBase_list, if_true]
      constructor
      · exact fun h => Or.inl h
      · rintro (h | h)
        · exact h
        · rw [h]; exact hin
    · have hcont : B.contains i.value = false := by simpa using hin
      simp only [hcont, Bool.not_false, Bool.and_true, if_true, boxBase_list,
        List.mem_append, List.mem_singleton]
  | false =>
    simp only [Bool.false_and, Bool.false_eq_true, if_false, Bool.not_false, if_true,
      boxBase_list, List.mem_filter, bne_iff_ne, ne_eq]

theorem saveVal_isList (i : Input) (cur : Option FieldValue) (hc : i.kind = .checkbox) :
    ∃ vs, saveVal i cur = some (.list vs) := by
  unfold saveVal
  rw [if_pos hc]
  split_ifs <;> exact ⟨_, rfl⟩

theorem valAfter_save_isList (n : String) :
    ∀ (rest : List Input) (cur : Option FieldValue),
      (∀ i ∈ rest, i.name = n → i.kind = .checkbox) →
      ((∃ vs, cur = some (.list vs)) ∨ ∃ i ∈ rest, i.name = n) →
      ∃ vs, valAfter saveVal n rest cur = some (.list vs)
  | [], cur, _, h => by
    rcases h with h | ⟨i, hi, _⟩
    · exact h
    · simp at hi
  | i :: t, cur, hbox, h => by
    simp only [valAfter]
    apply valAfter_save_isList n t _ (fun j hj => hbox j (List.mem_cons_of_mem _ hj))
    by_cases hn : i.name = n
    · rw [if_pos hn]
      exact Or.inl (saveVal_isList i cur (hbox i (List.mem_cons_self _ _) hn))
    · rw [if_neg hn]
      rcases h with h | ⟨j, hj, hjn⟩
      · exact Or.inl h
      · rcases List.mem_cons.1 hj with rfl | hj
        · exact absurd hjn hn
        · exact Or.inr ⟨j, hj, hjn⟩

theorem valAfter_save_mem (n : String) :
    ∀ (rest : List Input) (cur : Option FieldValue),
      (∀ i ∈ rest, i.name = n → i.kind = .checkbox) →
      (∀ i ∈ rest, ∀ j ∈ rest, i.name = n → j.name = n → i.value = j.value →
        i.checked = j.checked) →
      ∀ v, v ∈ boxBase (valAfter saveVal n rest cur) ↔
        (v ∈ boxBase cur ∧ ∀ i ∈ rest, i.name = n → i.value = v → i.checked = true) ∨
        (∃ i ∈ rest, i.name = n ∧ i.checked = true ∧ i.value = v)
  | [], cur, _, _, v => by simp [valAfter]
  | i :: t, cur, hbox, hcons, v => by
    have ih := fun c => valAfter_save_mem n t c
      (fun j hj => hbox j (List.mem_cons_of_mem _ hj))
      (fun a ha b hb => hcons a (List.mem_cons_of_mem _ ha) b (List.mem_cons_of_mem _ hb)) v
    simp only [valAfter]
    by_cases hn : i.name = n
    · rw [if_pos hn, ih, boxBase_saveVal i cur (hbox i (List.mem_cons_self _ _) hn)]
      cases hch : i.checked with
      | true =>
        simp only [if_true, List.mem_cons, forall_eq_or_imp, exists_eq_or_imp, hn, hch,
          true_and, implies_true]
        constructor
        · rintro (⟨hb | hv, hall⟩ | hex)
          · exact Or.inl ⟨hb, hall⟩
          · exact Or.inr (Or.inl hv.symm)
          · exact Or.inr (Or.inr hex)
        · rintro (⟨hb, hall⟩ | hv | hex)
          · exact Or.inl ⟨Or.inl hb, hall⟩
          · refine Or.inl ⟨Or.inr hv.symm, ?_⟩
            intro j hj hjn hjv
            have := hcons i (List.mem_cons_self _ _) j (List.mem_cons_of_mem _ hj) hn hjn
              (hv.trans hjv.symm)
            rw [← this, hch]
          · exact Or.inr hex
      | false =>
        simp only [Bool.false_eq_true, if_false, List.mem_cons, forall_eq_or_imp,
          exists_eq_or_imp, hn, hch, true_and, false_and, false_or, imp_false]
        constructor
        · rintro (⟨⟨hb, hv⟩, hall⟩ | hex)
          · exact Or.inl ⟨hb, fun _ h => hv h.symm, hall⟩
          · exact Or.inr hex
        · rintro (⟨hb, hv, hall⟩ | hex)
          · exact Or.inl ⟨⟨hb, fun h => hv trivial h.symm⟩, hall⟩
          · exact Or.inr hex
    · rw [if_neg hn, ih]
      simp only [List.mem_cons, forall_eq_or_imp, exists_eq_or_imp, hn, false_implies,
        true_and, false_and, false_or]

theorem queryQuestion_some : ∀ (dom : List Question) (n : Int) (k : Nat),
    queryQuestion dom n = some k → ∃ el, dom.get? k = some el ∧ el.dataQuestion = n
  | [], _, _, h => by simp [queryQuestion] at h
  | q :: rest, n, k, h => by
    unfold queryQuestion at h
    by_cases hq : q.dataQuestion = n
    · simp only [hq, if_true, Option.some.injEq] at h
      subst h
      exact ⟨q, rfl, hq⟩
    · simp only [hq, if_false, Option.map_eq_some'] at h
      obtain ⟨k', hk', rfl⟩ := h
      obtain ⟨el, hel, hd⟩ := queryQuestion_some rest n k' hk'
      exact ⟨el, by simpa using hel, hd⟩

theorem saveCurrentQuestionData_eq (s : State) (k : Nat) (el : Question)
    (hq : queryQuestion s.dom s.currentQuestion = some k) (hel : s.dom.get? k = some el)
    (fd : FormData) (h : saveInputs s.formData el.inputs = .ok fd) :
    saveCurrentQuestionData s = .ok { s with formData := fd } := by
  unfold saveCurrentQuestionData saveQuestionData
  simp only [hq, hel, h]

/-- C7 as amended: on a typed step with a checkbox field `name`, if every value
stored under `name` before the call is the value of an option of the step and
options with equal values are checked alike, then `saveCurrentQuestionData`
returns normally and the array under `name` holds, as a set, exactly the values
of the checked options. -/
theorem save_multiChoice (s : State) (k : Nat) (el : Question) (name : String) (box : Input)
    (hq : queryQuestion s.dom s.currentQuestion = some k) (hel : s.dom.get? k = some el)
    (hbox : box ∈ el.inputs ∧ box.kind = .checkbox ∧ box.name = name)
    (hap : CheckboxNamesApart el.inputs) (ht : RecordTyped el.inputs s.formData)
    (hprior : ∀ v ∈ boxBase (getField s.formData name),
      ∃ i ∈ el.inputs, i.name = name ∧ i.value = v)
    (hcons : ∀ i ∈ el.inputs, ∀ j ∈ el.inputs, i.name = name → j.name = name →
      i.value = j.value → i.checked = j.checked) :
    ∃ s' vs, saveCurrentQuestionData s = .ok s' ∧
      getField s'.formData name = some (.list vs) ∧
      ∀ v, v ∈ vs ↔ ∃ i ∈ el.inputs, i.name = name ∧ i.checked = true ∧ i.value = v := by
  obtain ⟨hbm, hbk, hbn⟩ := hbox
  obtain ⟨fd, hok, _, hget, _⟩ :=
    forEachInput_ok saveInput_keyLocal el.inputs hap el.inputs s.formData (fun _ h => h) ht
  have hallbox : ∀ i ∈ el.inputs, i.name = name → i.kind = .checkbox :=
    fun i hi hn => hap box hbm i hi hbk (hn.trans hbn.symm)
  obtain ⟨vs, hvs⟩ := valAfter_save_isList name el.inputs (getField s.formData name) hallbox
    (Or.inr ⟨box, hbm, hbn⟩)
  refine ⟨{ s with formData := fd }, vs, saveCurrentQuestionData_eq s k el hq hel fd hok, ?_, ?_⟩
  · show getField fd name = _
    rw [hget, hvs]
  · intro v
    have hmem := valAfter_save_mem name el.inputs (getField s.formData name) hallbox hcons v
    rw [hvs, boxBase_list] at hmem
    rw [hmem]
    constructor
    · rintro (⟨hb, hall⟩ | hex)
      · obtain ⟨i, hi, hin, hiv⟩ := hprior v hb
        exact ⟨i, hi, hin, hall i hi hin hiv, hiv⟩
      · exact hex
    · exact fun h => Or.inr h

theorem plainVal_cases (i : Input) :
    (¬ plainActs i ∧ ∀ c, plainVal i c = c) ∨
    (plainActs i ∧ ∀ c, plainVal i c = some (.text i.value)) := by
  unfold plainActs plainVal
  by_cases hr : i.kind = .radio
  · cases hc : i.checked <;> simp [hr, hc]
  · by_cases hv : i.value = "" <;> simp [hr, hv]

theorem saveVal_plainOutside : PlainOutside saveVal := by
  intro i c h
  simp [saveVal, h]

theorem collectVal_plainOutside : PlainOutside collectVal := by
  intro i c h
  simp [collectVal, h]

theorem valAfter_untouched (val : Input → Option FieldValue → Option FieldValue) (n : String) :
    ∀ (ops : List Input) (c : Option FieldValue), (∀ i ∈ ops, i.name ≠ n) →
      valAfter val n ops c = c
  | [], _, _ => rfl
  | i :: t, c, h => by
    simp only [valAfter, if_neg (h i (List.mem_cons_self _ _))]
    exact valAfter_untouched val n t c (fun j hj => h j (List.mem_cons_of_mem _ hj))

theorem valAfter_plain {val : Input → Option FieldValue → Option FieldValue}
    (hv : PlainOutside val) (n : String) :
    ∀ (ops : List Input) (c : Option FieldValue),
      (∀ i ∈ ops, i.name = n → i.kind ≠ .checkbox) →
      valAfter val n ops c = c ∨
        ∃ i ∈ ops, i.name = n ∧ plainActs i ∧ valAfter val n ops c = some (.text i.value)
  | [], _, _ => Or.inl rfl
  | i :: t, c, h => by
    simp only [valAfter]
    have ht : ∀ j ∈ t, j.name = n → j.kind ≠ .checkbox :=
      fun j hj => h j (List.mem_cons_of_mem _ hj)
    by_cases hn : i.name = n
    · rw [if_pos hn, hv i c (h i (List.mem_cons_self _ _) hn)]
      rcases valAfter_plain hv n t (plainVal i c) ht with h1 | ⟨j, hj, hjn, hja, hje⟩
      · rcases plainVal_cases i with ⟨_, hp⟩ | ⟨ha, hp⟩
        · left; rw [h1, hp]
        · right
          exact ⟨i, List.mem_cons_self _ _, hn, ha, by rw [h1, hp]⟩
      · exact Or.inr ⟨j, List.mem_cons_of_mem _ hj, hjn, hja, hje⟩
    · rw [if_neg hn]
      rcases valAfter_plain hv n t c ht with h1 | ⟨j, hj, hjn, hja, hje⟩
      · exact Or.inl h1
      · exact Or.inr ⟨j, List.mem_cons_of_mem _ hj, hjn, hja, hje⟩

theorem valAfter_plain_fixed {val : Input → Option FieldValue → Option FieldValue}
    (hv : PlainOutside val) (i : Input) (hk : i.kind ≠ .checkbox) :
    ∀ (ops : List Input) (c : Option FieldValue), (∀ j ∈ ops, j.name = i.name → j = i) →
      valAfter val i.name ops (plainVal i c) = plainVal i c
  | [], _, _ => rfl
  | j :: t, c, h => by
    simp only [valAfter]
    have ht : ∀ x ∈ t, x.name = i.name → x = i := fun x hx => h x (List.mem_cons_of_mem _ hx)
    by_cases hn : j.name = i.name
    · have hji : j = i := h j (List.mem_cons_self _ _) hn
      subst hji
      rw [if_pos rfl, hv j _ hk]
      have hidem : plainVal j (plainVal j c) = plainVal j c := by
        rcases plainVal_cases j with ⟨_, hp⟩ | ⟨_, hp⟩
        · rw [hp]
        · rw [hp, hp]
      rw [hidem]
      exact valAfter_plain_fixed hv j hk t c ht
    · rw [if_neg hn]
      exact valAfter_plain_fixed hv i hk t c ht

theorem valAfter_plain_unique {val : Input → Option FieldValue → Option FieldValue}
    (hv : PlainOutside val) (i : Input) (hk : i.kind ≠ .checkbox) :
    ∀ (ops : List Input) (c : Option FieldValue), i ∈ ops →
      (∀ j ∈ ops, j.name = i.name → j = i) →
      valAfter val i.name ops c = plainVal i c
  | [], _, hi, _ => by simp at hi
  | j :: t, c, hi, h => by
    simp only [valAfter]
    have ht : ∀ x ∈ t, x.name = i.name → x = i := fun x hx => h x (List.mem_cons_of_mem _ hx)
    by_cases hn : j.name = i.name
    · have hji : j = i := h j (List.mem_cons_self _ _) hn
      subst hji
      rw [if_pos rfl, hv j _ hk]
      exact valAfter_plain_fixed hv j hk t c ht
    · rw [if_neg hn]
      rcases List.mem_cons.1 hi with hij | hi
      · exact absurd (hij ▸ rfl) hn
      · exact valAfter_plain_unique hv i hk t c hi ht

theorem forEachInput_append (body : FormData → Input → Except FormData FormData) :
    ∀ (a b : List Input) (fd : FormData),
      forEachInput body fd (a ++ b) =
        match forEachInput body fd a with
        | .ok fd1 => forEachInput body fd1 b
        | .error fd1 => .error fd1
  | [], b, fd => rfl
  | i :: a, b, fd => by
    simp only [List.cons_append, forEachInput]
    cases body fd i with
    | ok fd1 => exact forEachInput_append body a b fd1
    | error fd1 => rfl

theorem collectQuestions_eq : ∀ (dom : List Question) (fd : FormData),
    collectQuestions fd dom = forEachInput collectInput fd (allInputs dom)
  | [], fd => rfl
  | q :: rest, fd => by
    simp only [collectQuestions, allInputs, forEachInput_append, collectInputs]
    cases forEachInput collectInput fd q.inputs with
    | ok fd1 => exact collectQuestions_eq rest fd1
    | error fd1 => rfl

theorem frame_of_valAfter {val : Input → Option FieldValue → Option FieldValue}
    (hv : PlainOutside val) (ops : List Input) (n : String) (c : Option FieldValue) :
    valAfter val n ops c = c ∨
      ∃ i ∈ ops, i.name = n ∧
        (i.kind = .checkbox ∨
         (i.kind = .radio ∧ i.checked = true ∧ valAfter val n ops c = some (.text i.value)) ∨
         (i.kind ≠ .radio ∧ i.value ≠ "" ∧ valAfter val n ops c = some (.text i.value))) := by
  by_cases hbox : ∃ j ∈ ops, j.name = n ∧ j.kind = .checkbox
  · obtain ⟨j, hj, hjn, hjk⟩ := hbox
    exact Or.inr ⟨j, hj, hjn, Or.inl hjk⟩
  · have hno : ∀ i ∈ ops, i.name = n → i.kind ≠ .checkbox :=
      fun i hi hn hk => hbox ⟨i, hi, hn, hk⟩
    rcases valAfter_plain hv n ops c hno with h | ⟨i, hi, hin, hact, he⟩
    · exact Or.inl h
    · refine Or.inr ⟨i, hi, hin, Or.inr ?_⟩
      rcases hact with ⟨h1, h2⟩ | ⟨h1, h2⟩
      · exact Or.inl ⟨h1, h2, he⟩
      · exact Or.inr ⟨h1, h2, he⟩

theorem outcome_save_formData (s : State) :
    (outcome (saveCurrentQuestionData s)).formData =
      recordOf (saveQuestionData s.dom s.currentQuestion s.formData) := by
  unfold saveCurrentQuestionData
  cases saveQuestionData s.dom s.currentQuestion s.formData <;> rfl

theorem after_collect_formData (s : State) :
    (stateAfterCollect (collectAllData s)).formData =
      recordOf (forEachInput collectInput s.formData (allInputs s.dom)) := by
  unfold collectAllData collectData
  rw [collectQuestions_eq]
  cases forEachInput collectInput s.formData (allInputs s.dom) <;> rfl

theorem saveCurrentQuestionData_keeps (s : State) (n : String)
    (hn : getField s.formData n ≠ none) :
    getField (outcome (saveCurrentQuestionData s)).formData n ≠ none := by
  rw [outcome_save_formData]
  unfold saveQuestionData
  cases queryQuestion s.dom s.currentQuestion with
  | none => exact hn
  | some k =>
    dsimp only
    cases s.dom.get? k with
    | none => exact hn
    | some el => exact forEachInput_keeps saveInput saveInput_keeps n el.inputs s.formData hn

theorem collectAllData_keeps (s : State) (n : String)
    (hn : getField s.formData n ≠ none) :
    getField (stateAfterCollect (collectAllData s)).formData n ≠ none := by
  rw [after_collect_formData]
  exact forEachInput_keeps collectInput collectInput_keeps n (allInputs s.dom) s.formData hn

/-- C9: every property of `formData` is still present after
`saveCurrentQuestionData` and after `collectAllData`, whether they return or
raise.  When fields are typed both return normally; after the save a free-text
field that is alone under its name holds the raw value if that is non-empty and
the stored value otherwise; and after either call a property has changed only
if a control of the saved step (of the page, for `collectAllData`) bears its
name and is a checkbox, a checked radio button whose value is the new value, or
a non-empty text control whose value is the new value. -/
theorem formData_never_loses (s : State) :
    (∀ n, getField s.formData n ≠ none →
      getField (outcome (saveCurrentQuestionData s)).formData n ≠ none) ∧
    (∀ n, getField s.formData n ≠ none →
      getField (stateAfterCollect (collectAllData s)).formData n ≠ none) ∧
    (∀ k el, queryQuestion s.dom s.currentQuestion = some k → s.dom.get? k = some el →
      CheckboxNamesApart el.inputs → RecordTyped el.inputs s.formData →
      ∃ s', saveCurrentQuestionData s = .ok s' ∧
        (∀ i ∈ el.inputs, i.kind ≠ .radio → i.kind ≠ .checkbox →
          (∀ j ∈ el.inputs, j.name = i.name → j = i) →
          getField s'.formData i.name =
            if i.value ≠ "" then some (.text i.value) else getField s.formData i.name) ∧
        (∀ n, getField s'.formData n = getField s.formData n ∨
          ∃ i ∈ el.inputs, i.name = n ∧
            (i.kind = .checkbox ∨
             (i.kind = .radio ∧ i.checked = true ∧
               getField s'.formData n = some (.text i.value)) ∨
             (i.kind ≠ .radio ∧ i.value ≠ "" ∧
               getField s'.formData n = some (.text i.value))))) ∧
    (CheckboxNamesApart (allInputs s.dom) → RecordTyped (allInputs s.dom) s.formData →
      ∃ s' p, collectAllData s = .ok (s', p) ∧
        ∀ n, getField s'.formData n = getField s.formData n ∨
          ∃ i ∈ allInputs s.dom, i.name = n ∧
            (i.kind = .checkbox ∨
             (i.kind = .radio ∧ i.checked = true ∧
               getField s'.formData n = some (.text i.value)) ∨
             (i.kind ≠ .radio ∧ i.value ≠ "" ∧
               getField s'.formData n = some (.text i.value)))) := by
  refine ⟨?_, ?_, ?_, ?_⟩
  · exact fun n hn => saveCurrentQuestionData_keeps s n hn
  · exact fun n hn => collectAllData_keeps s n hn
  · intro k el hq hel hap ht
    obtain ⟨fd, hok, _, hget, _, _⟩ :=
      forEachInput_ok saveInput_keyLocal el.inputs hap el.inputs s.formData (fun _ h => h) ht
    refine ⟨{ s with formData := fd }, saveCurrentQuestionData_eq s k el hq hel fd hok, ?_, ?_⟩
    · intro i hi hr hc huniq
      show getField fd i.name = _
      rw [hget, valAfter_plain_unique saveVal_plainOutside i hc el.inputs _ hi huniq]
      simp [plainVal, hr]
    · intro n
      show getField fd n = _ ∨ ∃ i ∈ el.inputs, i.name = n ∧ (_ ∨ (_ ∧ _ ∧ getField fd n = _) ∨
        (_ ∧ _ ∧ getField fd n = _))
      rw [hget]
      exact frame_of_valAfter saveVal_plainOutside el.inputs n _
  · intro hap ht
    obtain ⟨fd, hok, _, hget, _, _⟩ :=
      forEachInput_ok collectInput_keyLocal (allInputs s.dom) hap (allInputs s.dom) s.formData
        (fun _ h => h) ht
    refine ⟨{ s with formData := fd }, structureData fd, ?_, ?_⟩
    · unfold collectAllData collectData
      rw [collectQuestions_eq, hok]
    · intro n
      show getField fd n = _ ∨ ∃ i ∈ allInputs s.dom, i.name = n ∧
        (_ ∨ (_ ∧ _ ∧ getField fd n = _) ∨ (_ ∧ _ ∧ getField fd n = _))
      rw [hget]
      exact frame_of_valAfter collectVal_plainOutside (allInputs s.dom) n _

theorem valAfter_plain_const {val : Input → Option FieldValue → Option FieldValue}
    (hv : PlainOutside val) (n : String) :
    ∀ (ops : List Input) (c : Option FieldValue),
      (∀ i ∈ ops, i.name = n → i.kind ≠ .checkbox) →
      valAfter val n ops c = c ∨ ∀ c', valAfter val n ops c' = valAfter val n ops c
  | [], _, _ => Or.inl rfl
  | i :: t, c, h => by
    have ht : ∀ j ∈ t, j.name = n → j.kind ≠ .checkbox :=
      fun j hj => h j (List.mem_cons_of_mem _ hj)
    simp only [valAfter]
    by_cases hn : i.name = n
    · simp only [if_pos hn, hv i _ (h i (List.mem_cons_self _ _) hn)]
      rcases plainVal_cases i with ⟨_, hp⟩ | ⟨_, hp⟩
      · simp only [hp]
        exact valAfter_plain_const hv n t c ht
      · right
        intro c'
        rw [hp, hp]
    · simp only [if_neg hn]
      exact valAfter_plain_const hv n t c ht

theorem valAfter_plain_idem {val : Input → Option FieldValue → Option FieldValue}
    (hv : PlainOutside val) (n : String) (ops : List Input) (c : Option FieldValue)
    (h : ∀ i ∈ ops, i.name = n → i.kind ≠ .checkbox) :
    valAfter val n ops (valAfter val n ops c) = valAfter val n ops c := by
  rcases valAfter_plain_const hv n ops c h with h1 | h1
  · rw [h1, h1]
  · exact h1 _

theorem collectVal_box_fixed (i : Input) (vs : List String)
    (h : i.checked = true → i.value ∈ vs) (hk : i.kind = .checkbox) :
    collectVal i (some (.list vs)) = some (.list vs) := by
  unfold collectVal
  rw [if_pos hk]
  cases hc : i.checked with
  | false => simp
  | true =>
    have hin : i.value ∈ vs := h hc
    simp [boxBase_list, hin]

theorem collectVal_box_grows (i : Input) (vs : List String) (hk : i.kind = .checkbox) :
    ∃ vs', collectVal i (some (.list vs)) = some (.list vs') ∧ (∀ v ∈ vs, v ∈ vs') ∧
      (i.checked = true → i.value ∈ vs') := by
  unfold collectVal
  rw [if_pos hk]
  cases hc : i.checked with
  | false => exact ⟨vs, by simp, fun _ h => h, fun h => Bool.noConfusion h⟩
  | true =>
    by_cases hin : i.value ∈ vs
    · exact ⟨vs, by simp [boxBase_list, hin], fun _ h => h, fun _ => hin⟩
    · exact ⟨vs ++ [i.value], by simp [boxBase_list, hin],
        fun v h => List.mem_append_left _ h, fun _ => by simp⟩

theorem collectVal_box_checked (i : Input) (c : Option FieldValue) (hk : i.kind = .checkbox)
    (hc : i.checked = true) :
    ∃ vs, collectVal i c = some (.list vs) ∧ i.value ∈ vs := by
  unfold collectVal
  rw [if_pos hk, if_pos hc]
  by_cases hin : i.value ∈ boxBase c
  · exact ⟨boxBase c, by simp [hin], hin⟩
  · exact ⟨boxBase c ++ [i.value], by simp [hin], by simp⟩

theorem valAfter_box_grows (n : String) :
    ∀ (ops : List Input) (vs : List String),
      (∀ i ∈ ops, i.name = n → i.kind = .checkbox) →
      ∃ vs', valAfter collectVal n ops (some (.list vs)) = some (.list vs') ∧
        (∀ v ∈ vs, v ∈ vs') ∧
        (∀ i ∈ ops, i.name = n → i.checked = true → i.value ∈ vs')
  | [], vs, _ => ⟨vs, rfl, fun _ h => h, by simp⟩
  | i :: t, vs, h => by
    have ht : ∀ j ∈ t, j.name = n → j.kind = .checkbox :=
      fun j hj => h j (List.mem_cons_of_mem _ hj)
    simp only [valAfter]
    by_cases hn : i.name = n
    · rw [if_pos hn]
      obtain ⟨vs1, h1, hsub1, hi1⟩ :=
        collectVal_box_grows i vs (h i (List.mem_cons_self _ _) hn)
      rw [h1]
      obtain ⟨vs2, h2, hsub2, hall2⟩ := valAfter_box_grows n t vs1 ht
      refine ⟨vs2, h2, fun v hv => hsub2 v (hsub1 v hv), ?_⟩
      intro j hj hjn hjc
      rcases List.mem_cons.1 hj with rfl | hj
      · exact hsub2 _ (hi1 hjc)
      · exact hall2 j hj hjn hjc
    · rw [if_neg hn]
      obtain ⟨vs2, h2, hsub2, hall2⟩ := valAfter_box_grows n t vs ht
      refine ⟨vs2, h2, hsub2, ?_⟩
      intro j hj hjn hjc
      rcases List.mem_cons.1 hj with rfl | hj
      · exact absurd hjn hn
      · exact hall2 j hj hjn hjc

theorem valAfter_box_fixed (n : String) :
    ∀ (ops : List Input) (c : Option FieldValue),
      (∀ i ∈ ops, i.name = n → i.kind = .checkbox) →
      (∀ i ∈ ops, i.name = n → i.checked = true → ∃ vs, c = some (.list vs) ∧ i.value ∈ vs) →
      valAfter collectVal n ops c = c
  | [], _, _, _ => rfl
  | i :: t, c, h, hfix => by
    have ht : ∀ j ∈ t, j.name = n → j.kind = .checkbox :=
      fun j hj => h j (List.mem_cons_of_mem _ hj)
    have hfixt : ∀ j ∈ t, j.name = n → j.checked = true →
        ∃ vs, c = some (.list vs) ∧ j.value ∈ vs :=
      fun j hj => hfix j (List.mem_cons_of_mem _ hj)
    simp only [valAfter]
    by_cases hn : i.name = n
    · rw [if_pos hn]
      have hk := h i (List.mem_cons_self _ _) hn
      have hstep : collectVal i c = c := by
        cases hc : i.checked with
        | false => simp [collectVal, hk, hc]
        | true =>
          obtain ⟨vs, hvs, hin⟩ := hfix i (List.mem_cons_self _ _) hn hc
          rw [hvs]
          exact collectVal_box_fixed i vs (fun _ => hin) hk
      rw [hstep]
      exact valAfter_box_fixed n t c ht hfixt
    · rw [if_neg hn]
      exact valAfter_box_fixed n t c ht hfixt

theorem valAfter_box_result (n : String) :
    ∀ (ops : List Input) (c : Option FieldValue),
      (∀ i ∈ ops, i.name = n → i.kind = .checkbox) →
      ∀ i ∈ ops, i.name = n → i.checked = true →
        ∃ vs, valAfter collectVal n ops c = some (.list vs) ∧ i.value ∈ vs
  | [], _, _, i, hi, _, _ => by simp at hi
  | j :: t, c, h, i, hi, hin, hic => by
    have ht : ∀ x ∈ t, x.name = n → x.kind = .checkbox :=
      fun x hx => h x (List.mem_cons_of_mem _ hx)
    simp only [valAfter]
    rcases List.mem_cons.1 hi with rfl | hi
    · rw [if_pos hin]
      obtain ⟨vs, hvs, hmem⟩ :=
        collectVal_box_checked i c (h i (List.mem_cons_self _ _) hin) hic
      rw [hvs]
      obtain ⟨vs', h', hsub, _⟩ := valAfter_box_grows n t vs ht
      exact ⟨vs', h', hsub _ hmem⟩
    · exact valAfter_box_result n t _ ht i hi hin hic

theorem valAfter_box_idem (n : String) (ops : List Input) (c : Option FieldValue)
    (h : ∀ i ∈ ops, i.name = n → i.kind = .checkbox) :
    valAfter collectVal n ops (valAfter collectVal n ops c) = valAfter collectVal n ops c :=
  valAfter_box_fixed n ops _ h (fun i hi hin hic => valAfter_box_result n ops c h i hi hin hic)

theorem collectVal_ne_none_of_acts (i : Input) (c : Option FieldValue) (h : collectActs i) :
    collectVal i c ≠ none := by
  unfold collectVal
  rcases h with ⟨hr, hc⟩ | ⟨hk, hc⟩ | ⟨hr, hk, hv⟩
  · have hk : i.kind ≠ .checkbox := by rw [hr]; decide
    simp [hk, plainVal, hr, hc]
  · rw [if_pos hk, if_pos hc]
    split <;> exact Option.some_ne_none _
  · simp [hk, plainVal, hr, hv]

theorem collectVal_ne_none (i : Input) (c : Option FieldValue) (h : c ≠ none) :
    collectVal i c ≠ none := by
  unfold collectVal plainVal
  repeat' split
  all_goals first
    | exact h
    | exact Option.some_ne_none _

theorem valAfter_collect_ne_none (n : String) :
    ∀ (ops : List Input) (c : Option FieldValue), c ≠ none →
      valAfter collectVal n ops c ≠ none
  | [], _, h => h
  | i :: t, c, h => by
    simp only [valAfter]
    apply valAfter_collect_ne_none n t
    split
    · exact collectVal_ne_none i c h
    · exact h

theorem valAfter_collect_present :
    ∀ (ops : List Input) (c : Option FieldValue) (i : Input), i ∈ ops → collectActs i →
      valAfter collectVal i.name ops c ≠ none
  | [], _, i, hi, _ => by simp at hi
  | j :: t, c, i, hi, ha => by
    simp only [valAfter]
    rcases List.mem_cons.1 hi with rfl | hi
    · rw [if_pos rfl]
      exact valAfter_collect_ne_none _ t _ (collectVal_ne_none_of_acts i c ha)
    · exact valAfter_collect_present t _ i hi ha

theorem valAfter_collect_idem (ops : List Input) (hap : CheckboxNamesApart ops) (n : String)
    (c : Option FieldValue) :
    valAfter collectVal n ops (valAfter collectVal n ops c) = valAfter collectVal n ops c := by
  by_cases hbox : ∃ j ∈ ops, j.name = n ∧ j.kind = .checkbox
  · obtain ⟨j, hj, hjn, hjk⟩ := hbox
    exact valAfter_box_idem n ops c (fun i hi hin => hap j hj i hi hjk (hin.trans hjn.symm))
  · exact valAfter_plain_idem collectVal_plainOutside n ops c
      (fun i hi hn hk => hbox ⟨i, hi, hn, hk⟩)

/-- C8: when fields are typed and the record has each property once,
`collectAllData` returns normally, and a second call right after it returns the
same payload and leaves the record as the first call left it. -/
theorem collectAllData_idempotent (s : State)
    (hap : CheckboxNamesApart (allInputs s.dom))
    (ht : RecordTyped (allInputs s.dom) s.formData)
    (hnd : (s.formData.map Prod.fst).Nodup) :
    ∃ s1 p, collectAllData s = .ok (s1, p) ∧ collectAllData s1 = .ok (s1, p) := by
  obtain ⟨fd1, hok1, ht1, hget1, hnd1, _⟩ :=
    forEachInput_ok collectInput_keyLocal (allInputs s.dom) hap (allInputs s.dom) s.formData
      (fun _ h => h) ht
  obtain ⟨fd2, hok2, _, hget2, _, hkeys2⟩ :=
    forEachInput_ok collectInput_keyLocal (allInputs s.dom) hap (allInputs s.dom) fd1
      (fun _ h => h) ht1
  have hkeys : fd2.map Prod.fst = fd1.map Prod.fst := by
    apply hkeys2
    intro i hi ha
    rw [hget1]
    exact valAfter_collect_present (allInputs s.dom) _ i hi ha
  have heq : fd2 = fd1 := by
    apply formData_ext fd2 fd1 hkeys (hkeys ▸ hnd1 hnd)
    intro n
    rw [hget2, hget1]
    exact valAfter_collect_idem (allInputs s.dom) hap n _
  refine ⟨{ s with formData := fd1 }, structureData fd1, ?_, ?_⟩
  · unfold collectAllData collectData
    rw [collectQuestions_eq, hok1]
  · unfold collectAllData collectData
    rw [collectQuestions_eq]
    show (match (match forEachInput collectInput fd1 (allInputs s.dom) with
      | .ok fd => Except.ok (fd, structureData fd)
      | .error fd => Except.error fd) with
      | .ok r => Except.ok ({ s with formData := r.1 }, r.2)
      | .error fd => Except.error { s with formData := fd }) = _
    rw [hok2, heq]

/-! ### Navigation -/

theorem checkRequired_true (all : List Input) (i : Input) (h : (checkRequired all i).1 = true) :
    (checkRequired all i).2 = i := by
  unfold checkRequired at h ⊢
  by_cases h1 : i.isRequiredInput = true
  · rw [if_pos h1] at h ⊢
    by_cases h2 : i.kind = .radio
    · rw [if_pos h2]
    · rw [if_neg h2] at h ⊢
      by_cases h3 : trimIsEmpty i.value = true
      · rw [if_pos h3] at h
        exact Bool.noConfusion h
      · rw [if_neg h3]
  · rw [if_neg h1]

theorem checkAllRequired_true (all : List Input) :
    ∀ inputs : List Input, (checkAllRequired all inputs).1 = true →
      (checkAllRequired all inputs).2 = inputs
  | [], _ => rfl
  | i :: t, h => by
    simp only [checkAllRequired, Bool.and_eq_true] at h ⊢
    rw [checkRequired_true all i h.1, checkAllRequired_true all t h.2]

theorem checkEmail_true (inputs : List Input) (h : (checkEmail inputs).1 = true) :
    (checkEmail inputs).2 = inputs := by
  unfold checkEmail at h ⊢
  cases hq : queryEmail inputs with
  | none => rfl
  | some k =>
    simp only [hq] at h ⊢
    cases he : inputs.get? k with
    | none => rfl
    | some e =>
      simp only [he] at h ⊢
      by_cases hbad : e.value ≠ "" ∧ emailRegexTest e.value = false
      · rw [if_pos hbad] at h
        exact Bool.noConfusion h
      · rw [if_neg hbad]

theorem validateQuestion_true (cq : Int) (el : Question)
    (h : (validateQuestion cq el).1 = true) : (validateQuestion cq el).2 = el := by
  unfold validateQuestion at h ⊢
  simp only [Bool.and_eq_true] at h
  obtain ⟨⟨h1, h2⟩, _⟩ := h
  have e1 := checkAllRequired_true el.inputs el.inputs h1
  rw [e1] at h2
  simp only [e1, checkEmail_true el.inputs h2]

theorem modifyAt_fixed (f : Question → Question) :
    ∀ (dom : List Question) (k : Nat) (el : Question), dom.get? k = some el → f el = el →
      modifyAt f dom k = dom
  | [], _, _, _, _ => rfl
  | q :: rest, 0, el, h, hf => by
    simp only [List.get?_cons_zero, Option.some.injEq] at h
    subst h
    simp [modifyAt, hf]
  | q :: rest, k + 1, el, h, hf => by
    simp only [List.get?_cons_succ] at h
    simp [modifyAt, modifyAt_fixed f rest k el h hf]

theorem validateCurrentQuestion_true (s : State) (h : (validateCurrentQuestion s).1 = true) :
    (validateCurrentQuestion s).2 = s := by
  unfold validateCurrentQuestion at h ⊢
  cases hq : queryQuestion s.dom s.currentQuestion with
  | none => rfl
  | some k =>
    simp only [hq] at h ⊢
    cases hel : s.dom.get? k with
    | none => rfl
    | some el =>
      simp only [hel] at h ⊢
      rw [modifyAt_fixed _ s.dom k el hel (validateQuestion_true _ el h)]

theorem mem_allInputs : ∀ (dom : List Question) (k : Nat) (el : Question),
    dom.get? k = some el → ∀ i ∈ el.inputs, i ∈ allInputs dom
  | [], _, _, h, _, _ => by simp at h
  | q :: rest, 0, el, h, i, hi => by
    simp only [List.get?_cons_zero, Option.some.injEq] at h
    subst h
    simp [allInputs, hi]
  | q :: rest, k + 1, el, h, i, hi => by
    simp only [List.get?_cons_succ] at h
    simp only [allInputs, List.mem_append]
    exact Or.inr (mem_allInputs rest k el h i hi)

theorem get_append_length {α : Type} (l : List α) (x : α) :
    (l ++ [x]).get? l.length = some x := by
  induction l with
  | nil => rfl
  | cons a t ih => simp [ih]

theorem eraseIdx_append_length {α : Type} (l : List α) (x : α) :
    (l ++ [x]).eraseIdx l.length = l := by
  induction l with
  | nil => rfl
  | cons a t ih => simp [List.eraseIdx, ih]

theorem save_ok_typed (s : State) (k : Nat) (el : Question)
    (hq : queryQuestion s.dom s.currentQuestion = some k) (hel : s.dom.get? k = some el)
    (hap : CheckboxNamesApart (allInputs s.dom))
    (ht : RecordTyped (allInputs s.dom) s.formData) :
    ∃ fd, saveCurrentQuestionData s = .ok { s with formData := fd } ∧
      RecordTyped (allInputs s.dom) fd := by
  obtain ⟨fd, hok, ht1, _⟩ :=
    forEachInput_ok saveInput_keyLocal (allInputs s.dom) hap el.inputs s.formData
      (mem_allInputs s.dom k el hel) ht
  exact ⟨fd, saveCurrentQuestionData_eq s k el hq hel fd hok, ht1⟩

theorem collect_ok_typed (s : State)
    (hap : CheckboxNamesApart (allInputs s.dom))
    (ht : RecordTyped (allInputs s.dom) s.formData) :
    ∃ fd, collectAllData s = .ok ({ s with formData := fd }, structureData fd) := by
  obtain ⟨fd, hok, _⟩ :=
    forEachInput_ok collectInput_keyLocal (allInputs s.dom) hap (allInputs s.dom) s.formData
      (fun _ h => h) ht
  refine ⟨fd, ?_⟩
  unfold collectAllData collectData
  rw [collectQuestions_eq, hok]

/-- C2: when no transition runs, the current step is in `1..15`, the page has
the fifteen steps, fields are typed and the current step validates,
`nextQuestion` saves the step (`s1`) and then: on step 15 it runs `submitForm`,
which saves again, collects the payload and sends it, so that it returns with
one more request in flight whose body is the payload of the record, the forward
button disabled, `currentQuestion` still 15, no transition and no timer
started; on an earlier step it starts no request, keeps the saved record, and
after the two timers of the transition have fired `currentQuestion` is one
more than before and `isAnimating` is `false`. -/
theorem nextQuestion_valid (s : State)
    (hanim : s.isAnimating = false)
    (hlo : 1 ≤ s.currentQuestion) (hhi : s.currentQuestion ≤ TOTAL_QUESTIONS)
    (hpage : ∀ n : Int, 1 ≤ n → n ≤ TOTAL_QUESTIONS → (queryQuestion s.dom n).isSome = true)
    (hvalid : (validateCurrentQuestion s).1 = true)
    (hap : CheckboxNamesApart (allInputs s.dom))
    (ht : RecordTyped (allInputs s.dom) s.formData) :
    ∃ s1, saveCurrentQuestionData s = .ok s1 ∧
      (s.currentQuestion = TOTAL_QUESTIONS →
        ∃ s1' sc data s2, saveCurrentQuestionData s1 = .ok s1' ∧
          collectAllData s1' = .ok (sc, data) ∧ nextQuestion s = .ok s2 ∧
          s2.formData = sc.formData ∧
          s2.requests = s.requests ++ [data] ∧ data = structureData s2.formData ∧
          s2.nextBtnDisabled = true ∧
          s2.currentQuestion = TOTAL_QUESTIONS ∧ s2.isAnimating = false ∧
          s2.timers = s.timers ∧ s2.dom = s.dom) ∧
      (s.currentQuestion < TOTAL_QUESTIONS →
        ∃ s2, nextQuestion s = .ok s2 ∧
          s2.formData = s1.formData ∧ s2.requests = s.requests ∧
          s2.currentQuestion = s.currentQuestion ∧
          (fireTimer (fireTimer s2 s.timers.length) s.timers.length).currentQuestion =
            s.currentQuestion + 1 ∧
          (fireTimer (fireTimer s2 s.timers.length) s.timers.length).isAnimating = false ∧
          (fireTimer (fireTimer s2 s.timers.length) s.timers.length).requests = s.requests ∧
          (fireTimer (fireTimer s2 s.timers.length) s.timers.length).formData = s1.formData) := by
  have hcur := hpage s.currentQuestion hlo hhi
  obtain ⟨k, hq⟩ := Option.isSome_iff_exists.1 hcur
  obtain ⟨el, hel, _⟩ := queryQuestion_some s.dom s.currentQuestion k hq
  obtain ⟨fd1, hsave1, ht1⟩ := save_ok_typed s k el hq hel hap ht
  have hv2 := validateCurrentQuestion_true s hvalid
  refine ⟨{ s with formData := fd1 }, hsave1, ?_, ?_⟩
  · intro hlast
    obtain ⟨fd2, hsave2, ht2⟩ := save_ok_typed { s with formData := fd1 } k el hq hel hap ht1
    obtain ⟨fd3, hcollect⟩ := collect_ok_typed { s with formData := fd2 } hap ht2
    refine ⟨{ s with formData := fd2 }, { s with formData := fd3 }, structureData fd3,
      { s with
        formData := fd3, nextBtnDisabled := true, nextBtnLabel := NextLabel.envoi,
        requests := s.requests ++ [structureData fd3] },
      hsave2, hcollect, ?_, rfl, rfl, rfl, rfl, hlast, hanim, rfl, rfl⟩
    unfold nextQuestion
    rw [if_neg (by rw [hanim]; decide)]
    simp only [hvalid, hv2, hsave1, Bool.not_true, Bool.false_eq_true, if_false]
    rw [if_pos (show s.currentQuestion ≥ TOTAL_QUESTIONS by omega)]
    unfold submitForm
    simp only [hsave2, hcollect]
  · intro hlt
    have hnext := hpage (s.currentQuestion + 1) (by omega) (by omega)
    obtain ⟨k', hq'⟩ := Option.isSome_iff_exists.1 hnext
    have hnot : ¬ (s.currentQuestion ≥ TOTAL_QUESTIONS) := by omega
    have hnq : nextQuestion s = .ok
        { s with
          formData := fd1, isAnimating := true,
          dom := modifyAt (fun q => { q with slideUp := true }) s.dom k,
          timers := s.timers ++ [Timer.exitDone k k' (s.currentQuestion + 1)] } := by
      unfold nextQuestion
      rw [if_neg (by rw [hanim]; decide)]
      simp only [hvalid, hv2, hsave1, Bool.not_true, Bool.false_eq_true, if_false]
      rw [if_neg hnot]
      unfold animateTransition
      simp only [hq, hq', if_true]
    refine ⟨_, hnq, rfl, rfl, rfl, ?_, ?_, ?_, ?_⟩ <;>
      simp [fireTimer, get_append_length, eraseIdx_append_length, runTimer, updateNavButtons,
        updateProgress]

/-! ## Evaluation on the example pages -/

theorem samplePage_hasSteps : PageHasSteps samplePage := by
  intro n h1 h2
  unfold TOTAL_QUESTIONS at h2
  interval_cases n <;> rfl

/-- Witness for C1: on a page whose first step has a required text input
holding only white space, `nextQuestion` changes nothing but the `error` class
of that input. -/
theorem nextQuestion_blocked_witness :
    (initialState blankNamePage).isAnimating = false ∧
    queryQuestion (initialState blankNamePage).dom (initialState blankNamePage).currentQuestion
      = some 0 ∧
    blankNameInput.required = true ∧ blankNameInput.kind.isTextLike = true ∧
    trimIsEmpty blankNameInput.value = true ∧
    ∃ s', nextQuestion (initialState blankNamePage) = .ok s' ∧
      s'.currentQuestion = (initialState blankNamePage).currentQuestion ∧
      s'.isAnimating = false ∧
      s'.formData = (initialState blankNamePage).formData ∧
      s'.requests = (initialState blankNamePage).requests ∧
      s'.timers = (initialState blankNamePage).timers ∧
      activeSteps s'.dom = activeSteps (initialState blankNamePage).dom ∧
      ∃ el' input', s'.dom.get? 0 = some el' ∧ el'.inputs.get? 0 = some input' ∧
        input'.error = true :=
  ⟨rfl, rfl, rfl, rfl, by decide,
    nextQuestion_blocked (initialState blankNamePage) 0 0 (mkQuestion 1 [blankNameInput])
      blankNameInput rfl rfl rfl rfl rfl rfl (by decide)⟩

set_option maxRecDepth 100000 in
/-- Witness for C2: the first step of the sample page validates, and
`nextQuestion` saves it and moves to step 2. -/
theorem nextQuestion_valid_witness :
    (initialState samplePage).isAnimating = false ∧
    PageHasSteps (initialState samplePage).dom ∧
    (validateCurrentQuestion (initialState samplePage)).1 = true ∧
    CheckboxNamesApart (allInputs (initialState samplePage).dom) ∧
    RecordTyped (allInputs (initialState samplePage).dom) (initialState samplePage).formData ∧
    ∃ s1, saveCurrentQuestionData (initialState samplePage) = .ok s1 ∧
      ∃ s2, nextQuestion (initialState samplePage) = .ok s2 ∧
        s2.formData = s1.formData ∧ s2.requests = [] ∧
        (fireTimer (fireTimer s2 0) 0).currentQuestion = 2 ∧
        (fireTimer (fireTimer s2 0) 0).isAnimating = false := by
  have h := nextQuestion_valid (initialState samplePage) rfl (by decide) (by decide)
    samplePage_hasSteps (by decide) (by decide) (by decide)
  obtain ⟨s1, hs1, _, hnext⟩ := h
  obtain ⟨s2, hs2, hfd, hreq, _, hcq, han, _, _⟩ := hnext (by decide)
  exact ⟨rfl, samplePage_hasSteps, by decide, by decide, by decide,
    s1, hs1, s2, hs2, hfd, hreq, hcq, han⟩

set_option maxRecDepth 100000 in
/-- C3 (`1 ≤ activeStep ≤ N` in every reachable state) fails on the code: after
fourteen forward navigations the wizard is idle on step 15 with exactly that
step active; `goToQuestion(15)` then sets `currentQuestion` to 16, raises on the
missing element 16 with `isAnimating` left `true` and no timer pending, and the
navigation functions do nothing from then on. -/
theorem goToQuestion_last_leaves_range :
    atLastStep.currentQuestion = 15 ∧ atLastStep.isAnimating = false ∧
    activeSteps atLastStep.dom = [15] ∧
    (step atLastStep (.goTo 15)).currentQuestion = 16 ∧
    (step atLastStep (.goTo 15)).isAnimating = true ∧
    (step atLastStep (.goTo 15)).timers = [] ∧
    (run atLastStep [.goTo 15, .prev, .goTo 3, .next]).currentQuestion = 16 := by
  decide

set_option maxRecDepth 100000 in
/-- C4 (exactly one step is active after a completed navigation) fails on the
code: from the initial state, where exactly step 1 is active,
`goToQuestion(5)` run to completion leaves steps 1 and 5 both active, while the
forward path keeps a single active step. -/
theorem goToQuestion_leaves_two_active :
    activeSteps (initialState samplePage).dom = [1] ∧
    (run (initialState samplePage) [.goTo 5, .timer 0, .timer 0]).currentQuestion = 5 ∧
    (run (initialState samplePage) [.goTo 5, .timer 0, .timer 0]).isAnimating = false ∧
    (run (initialState samplePage) [.goTo 5, .timer 0, .timer 0]).timers = [] ∧
    activeSteps (run (initialState samplePage) [.goTo 5, .timer 0, .timer 0]).dom = [1, 5] ∧
    activeSteps (run (initialState samplePage) advanceOnce).dom = [2] := by
  decide

/-- Witness for C5: the first step of the sample page is a step of the kinds the
specification names, and the validator agrees with the specification on it. -/
theorem validate_iff_specValid_witness :
    queryQuestion (initialState samplePage).dom (initialState samplePage).currentQuestion
      = some 0 ∧
    RegistryStep (mkQuestion 1 [mkInput .text "fullName" "Ada Lovelace" false true true]).inputs ∧
    ((validateCurrentQuestion (initialState samplePage)).1 = true ↔
      specValid 1 (mkQuestion 1 [mkInput .text "fullName" "Ada Lovelace" false true true]).inputs) :=
  ⟨rfl, by decide,
    (validate_iff_specValid (initialState samplePage) 0
      (mkQuestion 1 [mkInput .text "fullName" "Ada Lovelace" false true true]) rfl rfl).1
      (by decide)⟩

/-- Counterexample for C6: each of `a@b@c.d`, `a@.b`, `@b.c` and `a@b.` is
non-empty, contains an `@`, a `.` after an `@` and no white space, and is
rejected by the regular expression. -/
theorem email_shape_claim_fails :
    ("a@b@c.d" ≠ "" ∧ specEmailShape "a@b@c.d" = true ∧ emailRegexTest "a@b@c.d" = false) ∧
    ("a@.b" ≠ "" ∧ specEmailShape "a@.b" = true ∧ emailRegexTest "a@.b" = false) ∧
    ("@b.c" ≠ "" ∧ specEmailShape "@b.c" = true ∧ emailRegexTest "@b.c" = false) ∧
    ("a@b." ≠ "" ∧ specEmailShape "a@b." = true ∧ emailRegexTest "a@b." = false) := by
  decide

/-- Counterexample for C7: with `legacy` stored under `domains` before the
call, and `tech` the only checked option of the step, the value after
`saveCurrentQuestionData` is `legacy, tech`: it contains a value that is not a
checked option, and it differs from the value obtained from an empty record.
And when two options share the value `tech`, the first checked and the second
not, the value after the call is empty although `tech` is checked. -/
theorem save_multiChoice_keeps_prior :
    (getField (outcome (saveCurrentQuestionData
        (domainsState [("domains", .list ["legacy"])]))).formData "domains"
      = some (.list ["legacy", "tech"]) ∧
    (¬ ∃ i ∈ domainsInputs, i.name = "domains" ∧ i.checked = true ∧ i.value = "legacy") ∧
    getField (outcome (saveCurrentQuestionData (domainsState []))).formData "domains"
      = some (.list ["tech"])) ∧
    (getField (outcome (saveCurrentQuestionData
        { domainsState [] with dom := [mkQuestion 13 twinInputs] })).formData "domains"
      = some (.list []) ∧
    ∃ i ∈ twinInputs, i.name = "domains" ∧ i.checked = true ∧ i.value = "tech") := by
  decide

/-- Witness for C7 as amended: with `finance` stored from an earlier visit and
now unchecked, the saved value is exactly the checked options. -/
theorem save_multiChoice_witness :
    queryQuestion (domainsState [("domains", .list ["finance"])]).dom
      (domainsState [("domains", .list ["finance"])]).currentQuestion = some 0 ∧
    CheckboxNamesApart domainsQuestion.inputs ∧
    RecordTyped domainsQuestion.inputs (domainsState [("domains", .list ["finance"])]).formData ∧
    ∃ s' vs, saveCurrentQuestionData (domainsState [("domains", .list ["finance"])]) = .ok s' ∧
      getField s'.formData "domains" = some (.list vs) ∧
      ∀ v, v ∈ vs ↔
        ∃ i ∈ domainsQuestion.inputs, i.name = "domains" ∧ i.checked = true ∧ i.value = v :=
  ⟨rfl, by decide, by decide,
    save_multiChoice (domainsState [("domains", .list ["finance"])]) 0 domainsQuestion "domains"
      (mkInput .checkbox "domains" "tech" true false false) rfl rfl (by decide) (by decide)
      (by decide) (by decide) (by decide)⟩

set_option maxRecDepth 100000 in
/-- Witness for C8: on the sample page with a record from an earlier visit, two
calls of `collectAllData` in a row return the same payload and leave the same
record. -/
theorem collectAllData_idempotent_witness :
    CheckboxNamesApart (allInputs revisitState.dom) ∧
    RecordTyped (allInputs revisitState.dom) revisitState.formData ∧
    (revisitState.formData.map Prod.fst).Nodup ∧
    ∃ s1 p, collectAllData revisitState = .ok (s1, p) ∧ collectAllData s1 = .ok (s1, p) :=
  ⟨by decide, by decide, by decide,
    collectAllData_idempotent revisitState (by decide) (by decide) (by decide)⟩

set_option maxRecDepth 100000 in
/-- Witness for C9: on the sample page with a record from an earlier visit, the
save of step 1 returns normally and overwrites the stored name with the text
typed, and `collectAllData` returns normally. -/
theorem formData_never_loses_witness :
    queryQuestion revisitState.dom revisitState.currentQuestion = some 0 ∧
    CheckboxNamesApart (allInputs revisitState.dom) ∧
    RecordTyped (allInputs revisitState.dom) revisitState.formData ∧
    (∃ s', saveCurrentQuestionData revisitState = .ok s' ∧
      getField s'.formData "fullName" = some (.text "Ada Lovelace") ∧
      getField s'.formData "domains" ≠ none) ∧
    (∃ s' p, collectAllData revisitState = .ok (s', p) ∧
      getField s'.formData "fullName" ≠ none) := by
  have h := formData_never_loses revisitState
  obtain ⟨s1, hs1, htext, _⟩ := h.2.2.1 0
    (mkQuestion 1 [mkInput .text "fullName" "Ada Lovelace" false true true]) rfl rfl
    (by decide) (by decide)
  obtain ⟨s2, p, hs2, _⟩ := h.2.2.2 (by decide) (by decide)
  have hkeep1 := h.1 "domains" (by decide)
  have hkeep2 := h.2.1 "fullName" (by decide)
  rw [hs1] at hkeep1
  rw [hs2] at hkeep2
  refine ⟨rfl, by decide, by decide, ⟨s1, hs1, ?_, hkeep1⟩, ⟨s2, p, hs2, hkeep2⟩⟩
  exact htext (mkInput .text "fullName" "Ada Lovelace" false true true) (by decide) (by decide)
    (by decide) (by decide)

set_option maxRecDepth 100000 in
/-- C10 (at most one submission request in flight) fails on the code: on the
last step of the sample page, with no request pending, one Enter key press in
the `.tf-input` field runs both `keydown` listeners and sends two requests;
and after an Enter key press elsewhere has sent one request and disabled the
forward button, a second Enter key press sends another. -/
theorem enter_key_double_submission :
    atLastStep.currentQuestion = 15 ∧ atLastStep.requests.length = 0 ∧
    (step atLastStep (.enter false true false)).requests.length = 2 ∧
    (step atLastStep (.enter false false false)).requests.length = 1 ∧
    (step atLastStep (.enter false false false)).nextBtnDisabled = true ∧
    (run atLastStep [.enter false false false, .enter false false false]).requests.length = 2 := by
  decide

end Typeform
